import Mathlib

/-!
Verification of the pipy event/mux/pipeline core.

Shallow embedding of the C++ sources:
  src/filters/mux.cpp     (MuxBase, SessionCluster, QueueMuxer, Stream)
  src/filters/replay.cpp  (Replay, ReplayReceiver)
  src/pipeline.cpp        (PipelineDef, Pipeline pooling)
  src/listener.cpp        (Listener admission control)
-/

namespace Pipy

/-- Terminal error carried by a StreamEnd event. The closed error set of the
engine is modelled with the REPLAY signal distinguished, since
ReplayReceiver::on_event (replay.cpp) branches on it; all
other codes are collapsed into numbered codes. noError corresponds to
StreamEnd::make() with no error. -/
inductive EndError : Type
  | noError : EndError
  | replay : EndError
  | other : Nat → EndError
  deriving DecidableEq, Repr

/-- Events of the pipeline dataflow: StreamStart, MessageStart(head),
Data(bytes), MessageEnd(tail), StreamEnd(error). Payloads are modelled as
head/tail tags and byte lists. -/
inductive Event : Type
  | streamStart : Event
  | messageStart : Option Nat → Event
  | data : List Nat → Event
  | messageEnd : Option Nat → Event
  | streamEnd : EndError → Event
  deriving DecidableEq, Repr

/-- Event::clone() returns a new event with the same payload (underlying
buffers are shared by refcount, so the payload is identical). -/
def Event.clone : Event → Event
  | .streamStart => .streamStart
  | .messageStart h => .messageStart h
  | .data b => .data b
  | .messageEnd t => .messageEnd t
  | .streamEnd e => .streamEnd e

theorem Event.clone_eq (e : Event) : e.clone = e := by
  cases e <;> rfl

/-- QueueMuxer::Stream (mux.cpp). Fields mirror m_queued_count (int),
m_started, m_dedicated, m_one_way, m_start (the retained MessageStart event)
and m_buffer; sid identifies the upstream stream object. -/
structure QStream : Type where
  sid : Nat
  queued_count : Int
  started : Bool
  dedicated : Bool
  one_way : Bool
  start : Option Event
  buffer : List Nat
  deriving DecidableEq, Repr

/-- QueueMuxer state (mux.cpp): the FIFO list of queued streams
(head = currently replying) and the m_dedicated flag. -/
structure QueueMuxer : Type where
  streams : List QStream
  dedicated : Bool
  deriving DecidableEq, Repr

/-- The StreamEnd fan-out loop of QueueMuxer::on_reply (mux.cpp lines
502-511): pop every queued stream, synthesize a MessageStart if the stream
was never started, then emit a clone of the StreamEnd. -/
def QueueMuxer.flushEnd (evt : Event) : List QStream → List (Nat × Event)
  | [] => []
  | s :: rest =>
      (if s.started then [(s.sid, evt.clone)]
       else [(s.sid, Event.messageStart none), (s.sid, evt.clone)])
      ++ QueueMuxer.flushEnd evt rest

/-- QueueMuxer::on_reply (mux.cpp lines 464-512): dispatch one reply event
coming back from the session. Returns the new muxer state and the list of
(stream id, event) outputs made to upstream streams. -/
def QueueMuxer.on_reply (m : QueueMuxer) (evt : Event) :
    QueueMuxer × List (Nat × Event) :=
  if m.dedicated then
    match m.streams with
    | [] => (m, [])
    | s :: rest =>
        ({ m with streams := { s with dedicated := true } :: rest },
         [(s.sid, evt)])
  else
    match evt with
    | .messageStart h =>
        match m.streams with
        | [] => (m, [])
        | s :: rest =>
            if s.started then (m, [])
            else ({ m with streams := { s with started := true } :: rest },
                  [(s.sid, .messageStart h)])
    | .data b =>
        match m.streams with
        | [] => (m, [])
        | s :: _ =>
            if s.started then (m, [(s.sid, .data b)]) else (m, [])
    | .messageEnd t =>
        match m.streams with
        | [] => (m, [])
        | s :: rest =>
            if s.started then
              if s.queued_count - 1 = 0 then
                ({ m with streams := rest }, [(s.sid, .messageEnd t)])
              else
                ({ m with streams :=
                    { s with queued_count := s.queued_count - 1,
                             started := false } :: rest },
                 [(s.sid, .messageEnd t)])
            else (m, [])
    | .streamEnd e =>
        ({ m with streams := [] },
         QueueMuxer.flushEnd (.streamEnd e) m.streams)
    | .streamStart => (m, [])

/-- Folding QueueMuxer::on_reply over a sequence of reply events from the
session, accumulating all outputs in order. -/
def QueueMuxer.run (m : QueueMuxer) : List Event → QueueMuxer × List (Nat × Event)
  | [] => (m, [])
  | e :: es =>
      let r := m.on_reply e
      let r' := r.1.run es
      (r'.1, r.2 ++ r'.2)

example :
    (QueueMuxer.on_reply
      ⟨[⟨7, 1, true, false, false, none, []⟩], false⟩
      (.messageEnd none)).2 = [(7, .messageEnd none)] := by decide

example :
    (QueueMuxer.on_reply
      ⟨[⟨7, 1, true, false, false, none, []⟩], false⟩
      (.messageEnd none)).1.streams = [] := by decide

theorem QueueMuxer.on_reply_dedicated (m : QueueMuxer) (evt : Event) :
    (m.on_reply evt).1.dedicated = m.dedicated := by
  rcases m with ⟨ss, ded⟩
  cases ded <;> cases evt <;> cases ss <;>
    simp only [QueueMuxer.on_reply] <;> split_ifs <;> rfl

theorem QueueMuxer.on_reply_sid_drop (m : QueueMuxer) (evt : Event)
    (h : m.dedicated = false) :
    ∃ k, ((m.on_reply evt).1.streams.map QStream.sid)
      = (m.streams.map QStream.sid).drop k := by
  rcases m with ⟨ss, ded⟩
  cases ded
  · cases evt with
    | streamStart => exact ⟨0, rfl⟩
    | messageStart h =>
        cases ss with
        | nil => exact ⟨0, rfl⟩
        | cons s rest =>
            by_cases hs : s.started <;>
              exact ⟨0, by simp [QueueMuxer.on_reply, hs]⟩
    | data b =>
        cases ss with
        | nil => exact ⟨0, rfl⟩
        | cons s rest =>
            by_cases hs : s.started <;>
              exact ⟨0, by simp [QueueMuxer.on_reply, hs]⟩
    | messageEnd t =>
        cases ss with
        | nil => exact ⟨0, rfl⟩
        | cons s rest =>
            by_cases hs : s.started
            · by_cases hq : s.queued_count - 1 = 0
              · exact ⟨1, by simp [QueueMuxer.on_reply, hs, hq]⟩
              · exact ⟨0, by simp [QueueMuxer.on_reply, hs, hq]⟩
            · exact ⟨0, by simp [QueueMuxer.on_reply, hs]⟩
    | streamEnd e =>
        exact ⟨ss.length, by simp [QueueMuxer.on_reply]⟩
  · simp at h

theorem QueueMuxer.run_sid_drop (evts : List Event) : ∀ (m : QueueMuxer),
    m.dedicated = false →
    ∃ k, ((m.run evts).1.streams.map QStream.sid)
      = (m.streams.map QStream.sid).drop k := by
  induction evts with
  | nil => exact fun m _ => ⟨0, rfl⟩
  | cons e es ih =>
      intro m h
      obtain ⟨k1, h1⟩ := m.on_reply_sid_drop e h
      obtain ⟨k2, h2⟩ := ih (m.on_reply e).1
        (by rw [QueueMuxer.on_reply_dedicated]; exact h)
      refine ⟨k2 + k1, ?_⟩
      have : (m.run (e :: es)).1 = ((m.on_reply e).1.run es).1 := rfl
      rw [this, h2, h1, List.drop_drop, Nat.add_comm]

/-- C1: in a non-dedicated QueueMuxer, every reply event short of a
StreamEnd is dispatched only to the stream at the head of the queue; the
queue shrinks only on a MessageEnd (or terminal StreamEnd); a MessageEnd
removes the head exactly when it decrements queued_count to 0 and otherwise
leaves the head queued; hence over any reply sequence the queue evolves by
popping streams from the front in enqueue order, so replies are emitted in
exactly the order the streams were enqueued and no stream starts replying
before every earlier stream has completed. -/
theorem queue_muxer_reply_fifo (m : QueueMuxer) (h : m.dedicated = false) :
    (∀ evt, (∀ e, evt ≠ Event.streamEnd e) →
        ∀ p ∈ (m.on_reply evt).2, ∃ s rest, m.streams = s :: rest ∧ p.1 = s.sid) ∧
    (∀ evt, (m.on_reply evt).1.streams.length < m.streams.length →
        (∃ t, evt = Event.messageEnd t) ∨ (∃ e, evt = Event.streamEnd e)) ∧
    (∀ t s rest, m.streams = s :: rest → s.started = true →
        (m.on_reply (Event.messageEnd t)).1.streams
          = if s.queued_count - 1 = 0 then rest
            else { s with queued_count := s.queued_count - 1,
                          started := false } :: rest) ∧
    (∀ evts, ∃ k, ((m.run evts).1.streams.map QStream.sid)
        = (m.streams.map QStream.sid).drop k) := by
  rcases m with ⟨ss, ded⟩
  cases ded
  case true => simp at h
  case false =>
  refine ⟨?_, ?_, ?_, fun evts => QueueMuxer.run_sid_drop evts _ rfl⟩
  · intro evt hne p hp
    cases evt with
    | streamStart => simp [QueueMuxer.on_reply] at hp
    | streamEnd e => exact absurd rfl (hne e)
    | messageStart hh =>
        cases ss with
        | nil => simp [QueueMuxer.on_reply] at hp
        | cons s rest =>
            by_cases hs : s.started <;>
              simp [QueueMuxer.on_reply, hs] at hp
            exact ⟨s, rest, rfl, by simp [hp]⟩
    | data b =>
        cases ss with
        | nil => simp [QueueMuxer.on_reply] at hp
        | cons s rest =>
            by_cases hs : s.started <;>
              simp [QueueMuxer.on_reply, hs] at hp
            exact ⟨s, rest, rfl, by simp [hp]⟩
    | messageEnd t =>
        cases ss with
        | nil => simp [QueueMuxer.on_reply] at hp
        | cons s rest =>
            by_cases hs : s.started
            · by_cases hq : s.queued_count - 1 = 0 <;>
                simp [QueueMuxer.on_reply, hs, hq] at hp <;>
                exact ⟨s, rest, rfl, by simp [hp]⟩
            · simp [QueueMuxer.on_reply, hs] at hp
  · intro evt hlt
    cases evt with
    | streamStart => simp [QueueMuxer.on_reply] at hlt
    | streamEnd e => exact Or.inr ⟨e, rfl⟩
    | messageEnd t => exact Or.inl ⟨t, rfl⟩
    | messageStart hh =>
        exfalso
        cases ss with
        | nil => simp [QueueMuxer.on_reply] at hlt
        | cons s rest =>
            by_cases hs : s.started <;>
              simp [QueueMuxer.on_reply, hs] at hlt
    | data b =>
        exfalso
        cases ss with
        | nil => simp [QueueMuxer.on_reply] at hlt
        | cons s rest =>
            by_cases hs : s.started <;>
              simp [QueueMuxer.on_reply, hs] at hlt
  · intro t s rest hss hs
    subst hss
    by_cases hq : s.queued_count - 1 = 0 <;>
      simp [QueueMuxer.on_reply, hs, hq]

/-- Witness for queue_muxer_reply_fifo on a concrete two-stream muxer. -/
theorem queue_muxer_reply_fifo_witness :
    (QueueMuxer.dedicated ⟨[⟨1, 1, true, false, false, none, []⟩,
        ⟨2, 1, false, false, false, none, []⟩], false⟩ = false) ∧
    ((∀ evt, (∀ e, evt ≠ Event.streamEnd e) →
        ∀ p ∈ ((⟨[⟨1, 1, true, false, false, none, []⟩,
            ⟨2, 1, false, false, false, none, []⟩], false⟩ :
              QueueMuxer).on_reply evt).2,
          ∃ s rest, (⟨[⟨1, 1, true, false, false, none, []⟩,
            ⟨2, 1, false, false, false, none, []⟩], false⟩ :
              QueueMuxer).streams = s :: rest ∧ p.1 = s.sid) ∧
      (∀ evt, ((⟨[⟨1, 1, true, false, false, none, []⟩,
            ⟨2, 1, false, false, false, none, []⟩], false⟩ :
              QueueMuxer).on_reply evt).1.streams.length <
          (⟨[⟨1, 1, true, false, false, none, []⟩,
            ⟨2, 1, false, false, false, none, []⟩], false⟩ :
              QueueMuxer).streams.length →
        (∃ t, evt = Event.messageEnd t) ∨ (∃ e, evt = Event.streamEnd e)) ∧
      (∀ t s rest, (⟨[⟨1, 1, true, false, false, none, []⟩,
            ⟨2, 1, false, false, false, none, []⟩], false⟩ :
              QueueMuxer).streams = s :: rest → s.started = true →
        ((⟨[⟨1, 1, true, false, false, none, []⟩,
            ⟨2, 1, false, false, false, none, []⟩], false⟩ :
              QueueMuxer).on_reply (Event.messageEnd t)).1.streams
          = if s.queued_count - 1 = 0 then rest
            else { s with queued_count := s.queued_count - 1,
                          started := false } :: rest) ∧
      (∀ evts, ∃ k, (((⟨[⟨1, 1, true, false, false, none, []⟩,
            ⟨2, 1, false, false, false, none, []⟩], false⟩ :
              QueueMuxer).run evts).1.streams.map QStream.sid)
          = ((⟨[⟨1, 1, true, false, false, none, []⟩,
            ⟨2, 1, false, false, false, none, []⟩], false⟩ :
              QueueMuxer).streams.map QStream.sid).drop k)) :=
  ⟨rfl, queue_muxer_reply_fifo _ rfl⟩

theorem QueueMuxer.flushEnd_eq_flatMap (evt : Event) (l : List QStream) :
    QueueMuxer.flushEnd evt l
      = l.flatMap (fun s =>
          (if s.started then [] else [(s.sid, Event.messageStart none)])
          ++ [(s.sid, evt.clone)]) := by
  induction l with
  | nil => rfl
  | cons s rest ih =>
      by_cases hs : s.started <;>
        simp [QueueMuxer.flushEnd, hs, ih]

/-- C8: a StreamEnd reply makes the QueueMuxer emit, to every queued stream
in queue order, a synthesized MessageStart (only when none was forwarded
yet) followed by a clone of the StreamEnd, and leaves the queue empty. -/
theorem queue_muxer_stream_end_fanout (m : QueueMuxer)
    (h : m.dedicated = false) (e : EndError) :
    (m.on_reply (Event.streamEnd e)).1.streams = [] ∧
    (m.on_reply (Event.streamEnd e)).2
      = m.streams.flatMap (fun s =>
          (if s.started then [] else [(s.sid, Event.messageStart none)])
          ++ [(s.sid, Event.streamEnd e)]) := by
  rcases m with ⟨ss, ded⟩
  cases ded
  case true => simp at h
  case false =>
  constructor
  · rfl
  · show QueueMuxer.flushEnd (Event.streamEnd e) ss = _
    rw [QueueMuxer.flushEnd_eq_flatMap]
    simp [Event.clone]

/-- Witness for queue_muxer_stream_end_fanout on a concrete queue with one
started and one unstarted stream. -/
theorem queue_muxer_stream_end_fanout_witness :
    (QueueMuxer.dedicated ⟨[⟨1, 1, true, false, false, none, []⟩,
        ⟨2, 1, false, false, false, none, []⟩], false⟩ = false) ∧
    (((⟨[⟨1, 1, true, false, false, none, []⟩,
        ⟨2, 1, false, false, false, none, []⟩], false⟩ :
          QueueMuxer).on_reply (Event.streamEnd .noError)).1.streams = [] ∧
      ((⟨[⟨1, 1, true, false, false, none, []⟩,
        ⟨2, 1, false, false, false, none, []⟩], false⟩ :
          QueueMuxer).on_reply (Event.streamEnd .noError)).2
        = (⟨[⟨1, 1, true, false, false, none, []⟩,
            ⟨2, 1, false, false, false, none, []⟩], false⟩ :
              QueueMuxer).streams.flatMap (fun s =>
            (if s.started then [] else [(s.sid, Event.messageStart none)])
            ++ [(s.sid, Event.streamEnd .noError)])) :=
  ⟨rfl, queue_muxer_stream_end_fanout _ rfl .noError⟩

/-- QueueMuxer::Stream enqueue-and-flush step shared by the MessageEnd and
StreamEnd cases of Stream::on_event (mux.cpp lines 543-556): when a start
has been captured and the stream is not yet enqueued, set queued_count to 1,
append the stream to the muxer queue unless one_way, and emit the captured
MessageStart, the buffered Data if any, and the MessageEnd (a fresh one when
the trigger was a StreamEnd) to the session. -/
def QStream.flush (m : QueueMuxer) (s : QStream) (evt : Event) :
    QStream × QueueMuxer × List Event :=
  match s.start with
  | none => (s, m, [])
  | some st =>
      if s.queued_count = 0 then
        let s' : QStream := { s with queued_count := 1, buffer := [] }
        let m' := if s.one_way then m
                  else { m with streams := m.streams ++ [s'] }
        let endEvt := match evt with
          | .messageEnd t => Event.messageEnd t
          | _ => Event.messageEnd none
        (s', m',
         [st] ++ (if s.buffer = [] then [] else [Event.data s.buffer])
             ++ [endEvt])
      else (s, m, [])

/-- QueueMuxer::Stream::on_event (mux.cpp lines 525-558): upstream events
arriving at one stream. Returns the new stream state, the new muxer state
and the events output to the session. -/
def QStream.on_event (m : QueueMuxer) (s : QStream) (evt : Event) :
    QStream × QueueMuxer × List Event :=
  if s.dedicated then (s, m, [evt])
  else
    match evt with
    | .messageStart h =>
        match s.start with
        | none => ({ s with start := some (.messageStart h) }, m, [])
        | some _ => (s, m, [])
    | .data b =>
        if s.start.isSome ∧ s.queued_count = 0 then
          ({ s with buffer := s.buffer ++ b }, m, [])
        else (s, m, [])
    | .messageEnd _ => QStream.flush m s evt
    | .streamEnd _ => QStream.flush m s evt
    | .streamStart => (s, m, [])

/-- Folding Stream::on_event over a sequence of upstream events. -/
def QStream.runUp (m : QueueMuxer) (s : QStream) :
    List Event → QStream × QueueMuxer × List Event
  | [] => (s, m, [])
  | e :: es =>
      let r := QStream.on_event m s e
      let r' := QStream.runUp r.2.1 r.1 es
      (r'.1, r'.2.1, r.2.2 ++ r'.2.2)

theorem QStream.on_event_start_some (m : QueueMuxer) (s : QStream)
    (hd : s.dedicated = false) (hs : s.start.isSome) (h : Option Nat) :
    QStream.on_event m s (Event.messageStart h) = (s, m, []) := by
  rcases s with ⟨sid, qc, st, ded, ow, start, buf⟩
  cases ded
  · cases start with
    | none => simp at hs
    | some e => simp [QStream.on_event]
  · simp at hd

theorem QStream.runUp_starts_some (hs : List (Option Nat)) :
    ∀ (m : QueueMuxer) (s : QStream), s.dedicated = false → s.start.isSome →
    QStream.runUp m s (hs.map Event.messageStart) = (s, m, []) := by
  induction hs with
  | nil => intro m s _ _; rfl
  | cons h rest ih =>
      intro m s hd hsome
      show QStream.runUp m s (Event.messageStart h :: rest.map Event.messageStart)
        = (s, m, [])
      simp [QStream.runUp, QStream.on_event_start_some m s hd hsome h,
        ih m s hd hsome]

/-- C9: a Stream records only the first MessageStart (a second MessageStart
before the message is flushed leaves the stream, the muxer and the outputs
untouched), a MessageStart never grows the Data buffer, and over any prefix
of MessageStart events the recorded pending start is exactly the first one
while the buffer, the muxer queue and the session outputs are unchanged. -/
theorem queue_muxer_stream_first_start (m : QueueMuxer) (s : QStream)
    (hd : s.dedicated = false) :
    (∀ h, s.start.isSome →
        QStream.on_event m s (Event.messageStart h) = (s, m, [])) ∧
    (∀ h, (QStream.on_event m s (Event.messageStart h)).1.buffer = s.buffer ∧
        (QStream.on_event m s (Event.messageStart h)).2.1 = m ∧
        (QStream.on_event m s (Event.messageStart h)).2.2 = []) ∧
    (∀ hs : List (Option Nat), s.start = none →
        (QStream.runUp m s (hs.map Event.messageStart)).1.start
            = hs.head?.map Event.messageStart ∧
        (QStream.runUp m s (hs.map Event.messageStart)).1.buffer = s.buffer ∧
        (QStream.runUp m s (hs.map Event.messageStart)).2.1 = m ∧
        (QStream.runUp m s (hs.map Event.messageStart)).2.2 = []) := by
  refine ⟨fun h hsome => QStream.on_event_start_some m s hd hsome h, ?_, ?_⟩
  · intro h
    rcases s with ⟨sid, qc, st, ded, ow, start, buf⟩
    cases ded
    · cases start <;> simp [QStream.on_event]
    · simp at hd
  · intro hs hnone
    cases hs with
    | nil => exact ⟨by simp [QStream.runUp, hnone], rfl, rfl, rfl⟩
    | cons h rest =>
        have step : QStream.on_event m s (Event.messageStart h)
            = ({ s with start := some (.messageStart h) }, m, []) := by
          rcases s with ⟨sid, qc, st, ded, ow, start, buf⟩
          cases ded
          · cases start with
            | none => simp [QStream.on_event]
            | some e => simp at hnone
          · simp at hd
        have hrest := QStream.runUp_starts_some rest m
          { s with start := some (.messageStart h) } hd (by simp)
        constructor
        · show (QStream.runUp m s
            (Event.messageStart h :: rest.map Event.messageStart)).1.start = _
          simp [QStream.runUp, step, hrest]
        refine ⟨?_, ?_, ?_⟩ <;>
          simp only [QStream.runUp, step, hrest] <;> simp

/-- Witness for queue_muxer_stream_first_start on a concrete fresh stream. -/
theorem queue_muxer_stream_first_start_witness :
    (QStream.dedicated ⟨5, 0, false, false, false, none, []⟩ = false) ∧
    ((∀ h, (QStream.start ⟨5, 0, false, false, false, none, []⟩).isSome →
        QStream.on_event ⟨[], false⟩ ⟨5, 0, false, false, false, none, []⟩
            (Event.messageStart h)
          = (⟨5, 0, false, false, false, none, []⟩, ⟨[], false⟩, [])) ∧
      (∀ h, (QStream.on_event ⟨[], false⟩
            ⟨5, 0, false, false, false, none, []⟩
            (Event.messageStart h)).1.buffer
          = QStream.buffer ⟨5, 0, false, false, false, none, []⟩ ∧
        (QStream.on_event ⟨[], false⟩ ⟨5, 0, false, false, false, none, []⟩
            (Event.messageStart h)).2.1 = ⟨[], false⟩ ∧
        (QStream.on_event ⟨[], false⟩ ⟨5, 0, false, false, false, none, []⟩
            (Event.messageStart h)).2.2 = []) ∧
      (∀ hs : List (Option Nat),
          QStream.start ⟨5, 0, false, false, false, none, []⟩ = none →
        (QStream.runUp ⟨[], false⟩ ⟨5, 0, false, false, false, none, []⟩
            (hs.map Event.messageStart)).1.start
          = hs.head?.map Event.messageStart ∧
        (QStream.runUp ⟨[], false⟩ ⟨5, 0, false, false, false, none, []⟩
            (hs.map Event.messageStart)).1.buffer
          = QStream.buffer ⟨5, 0, false, false, false, none, []⟩ ∧
        (QStream.runUp ⟨[], false⟩ ⟨5, 0, false, false, false, none, []⟩
            (hs.map Event.messageStart)).2.1 = ⟨[], false⟩ ∧
        (QStream.runUp ⟨[], false⟩ ⟨5, 0, false, false, false, none, []⟩
            (hs.map Event.messageStart)).2.2 = [])) :=
  ⟨rfl, queue_muxer_stream_first_start ⟨[], false⟩ _ rfl⟩

/-- MuxBase::Session as seen by its SessionCluster: identity, share_count,
message_count, free_time, the closed flag and whether a pipeline is linked.
The field declarations live in mux.hpp, which is not part of the source
subset; the fields themselves are dictated by their uses in mux.cpp. -/
structure CSession : Type where
  sid : Nat
  share_count : Int
  message_count : Int
  free_time : Int
  is_closed : Bool
  linked : Bool
  deriving DecidableEq, Repr

/-- Modelled from the spec: the initializers of MuxBase::Session's counters
live in mux.hpp, which is missing from the source subset. Per spec section 3
a Session carries a share count and a "message count (total streams opened)",
and per spec 4.5 step 3 a freshly created session is immediately handed to
the muxer that requested it, so it starts with share_count 1 and
message_count 1, not closed, not yet linked to a pipeline. -/
def CSession.fresh (sid : Nat) : CSession :=
  ⟨sid, 1, 1, 0, false, false⟩

/-- MuxBase::SessionCluster (mux.cpp): the session list ordered as the
intrusive List\x28Session\x29, with the per-cluster limits copied from
Options (mux.cpp 233-237) and the weak-key liveness flag. -/
structure SessionCluster : Type where
  sessions : List CSession
  max_idle : Int
  max_queue : Int
  max_messages : Int
  weak_ptr_gone : Bool
  deriving DecidableEq, Repr

/-- MuxBase::SessionCluster::sort (mux.cpp lines 278-301) acting on the
session x sitting between pre and post in the list: walk backwards past
predecessors with larger share_count and reinsert after the first
predecessor with share_count at most x's; if no predecessor is larger, walk
forwards past successors with smaller share_count and reinsert before the
first successor with share_count at least x's (pushing to the tail when all
are smaller). -/
def SessionCluster.sortMove (pre : List CSession) (x : CSession)
    (post : List CSession) : List CSession :=
  if pre.reverse.takeWhile (fun p => decide (x.share_count < p.share_count)) = [] then
    pre ++ post.takeWhile (fun p => decide (p.share_count < x.share_count))
        ++ x :: post.dropWhile (fun p => decide (p.share_count < x.share_count))
  else
    (pre.reverse.dropWhile (fun p => decide (x.share_count < p.share_count))).reverse
      ++ x :: ((pre.reverse.takeWhile
            (fun p => decide (x.share_count < p.share_count))).reverse ++ post)

theorem SessionCluster.sortMove_perm (pre : List CSession) (x : CSession)
    (post : List CSession) :
    (SessionCluster.sortMove pre x post).Perm (pre ++ x :: post) := by
  unfold SessionCluster.sortMove
  split
  · have hsplit : post.takeWhile (fun p => decide (p.share_count < x.share_count))
        ++ post.dropWhile (fun p => decide (p.share_count < x.share_count))
        = post := List.takeWhile_append_dropWhile _ _
    conv_rhs => rw [← hsplit]
    rw [List.append_assoc]
    exact List.Perm.append_left pre List.perm_middle
  · have hsplit :
        pre.reverse.takeWhile (fun p => decide (x.share_count < p.share_count))
        ++ pre.reverse.dropWhile (fun p => decide (x.share_count < p.share_count))
        = pre.reverse := List.takeWhile_append_dropWhile _ _
    have hpre : pre
        = (pre.reverse.dropWhile
            (fun p => decide (x.share_count < p.share_count))).reverse
          ++ (pre.reverse.takeWhile
            (fun p => decide (x.share_count < p.share_count))).reverse := by
      rw [← List.reverse_append, hsplit, List.reverse_reverse]
    conv_rhs => rw [hpre]
    rw [List.append_assoc]
    exact List.Perm.append_left _ List.perm_middle.symm

/-- The admission test of SessionCluster::alloc (mux.cpp lines 244-247):
not closed, share_count below max_queue (a limit of 0 or less meaning
unlimited) and message_count below max_messages (same convention). -/
def SessionCluster.fits (Q M : Int) (s : CSession) : Bool :=
  !s.is_closed && (decide (Q ≤ 0) || decide (s.share_count < Q))
    && (decide (M ≤ 0) || decide (s.message_count < M))

/-- The counter bump applied by SessionCluster::alloc to the session it
returns (mux.cpp lines 248-249). -/
def CSession.bump (s : CSession) : CSession :=
  { s with share_count := s.share_count + 1,
           message_count := s.message_count + 1 }

/-- The walk of SessionCluster::alloc (mux.cpp lines 242-255): find the
first fitting session, bump both counters and re-sort it into place; pre
accumulates the sessions already passed. -/
def SessionCluster.allocGo (Q M : Int) (pre : List CSession) :
    List CSession → Option (CSession × List CSession)
  | [] => none
  | s :: rest =>
      if SessionCluster.fits Q M s then
        some (s.bump, SessionCluster.sortMove pre s.bump rest)
      else
        SessionCluster.allocGo Q M (pre ++ [s]) rest

/-- MuxBase::SessionCluster::alloc (mux.cpp lines 239-261): return the
first fitting session with both counters bumped and the list re-sorted, or
create a fresh session at the head of the list when none fits. The second
component is the returned session, the third tells whether it is fresh. -/
def SessionCluster.alloc (c : SessionCluster) (fresh_sid : Nat) :
    SessionCluster × CSession × Bool :=
  match SessionCluster.allocGo c.max_queue c.max_messages [] c.sessions with
  | some r => ({ c with sessions := r.2 }, r.1, false)
  | none =>
      ({ c with sessions := CSession.fresh fresh_sid :: c.sessions },
       CSession.fresh fresh_sid, true)

/-- Split the session list at the first session carrying the given id. -/
def SessionCluster.splitBySid (sid : Nat) :
    List CSession → Option (List CSession × CSession × List CSession)
  | [] => none
  | s :: rest =>
      if s.sid = sid then some ([], s, rest)
      else (SessionCluster.splitBySid sid rest).map
        (fun r => (s :: r.1, r.2.1, r.2.2))

/-- The per-session effect of SessionCluster::free (mux.cpp lines 264-268):
decrement share_count and record free_time when the session becomes free. -/
def CSession.unshare (s : CSession) (now : Int) : CSession :=
  if s.share_count - 1 = 0
  then { s with share_count := s.share_count - 1, free_time := now }
  else { s with share_count := s.share_count - 1 }

/-- MuxBase::SessionCluster::free (mux.cpp lines 263-269): decrement the
session's share_count, record free_time when the session becomes free, and
re-sort it into place. -/
def SessionCluster.free (c : SessionCluster) (sid : Nat) (now : Int) :
    SessionCluster :=
  match SessionCluster.splitBySid sid c.sessions with
  | none => c
  | some (pre, s, post) =>
      { c with sessions := SessionCluster.sortMove pre (s.unshare now) post }

theorem SessionCluster.allocGo_none (Q M : Int) :
    ∀ (l pre : List CSession), SessionCluster.allocGo Q M pre l = none ↔
      ∀ s ∈ l, SessionCluster.fits Q M s = false := by
  intro l
  induction l with
  | nil => intro pre; simp [SessionCluster.allocGo]
  | cons s rest ih =>
      intro pre
      by_cases hf : SessionCluster.fits Q M s
      · simp [SessionCluster.allocGo, hf]
      · simp only [SessionCluster.allocGo, if_neg hf]
        rw [ih (pre ++ [s])]
        simp [Bool.eq_false_iff.mpr hf]

theorem SessionCluster.allocGo_first_fit (Q M : Int) :
    ∀ (l1 l2 pre : List CSession) (y : CSession),
      (∀ z ∈ l1, SessionCluster.fits Q M z = false) →
      SessionCluster.fits Q M y = true →
      SessionCluster.allocGo Q M pre (l1 ++ y :: l2)
        = some (y.bump, SessionCluster.sortMove (pre ++ l1) y.bump l2) := by
  intro l1
  induction l1 with
  | nil =>
      intro l2 pre y _ hy
      simp [SessionCluster.allocGo, hy]
  | cons z l1' ih =>
      intro l2 pre y hl1 hy
      have hz : SessionCluster.fits Q M z = false := hl1 z (by simp)
      show SessionCluster.allocGo Q M pre (z :: (l1' ++ y :: l2)) = _
      simp only [SessionCluster.allocGo, hz, Bool.false_eq_true, if_false]
      rw [ih l2 (pre ++ [z]) y (fun w hw => hl1 w (by simp [hw])) hy]
      simp

theorem SessionCluster.splitBySid_sound (sid : Nat) :
    ∀ (l pre : List CSession) (s : CSession) (post : List CSession),
      SessionCluster.splitBySid sid l = some (pre, s, post) →
      l = pre ++ s :: post ∧ s.sid = sid ∧ ∀ z ∈ pre, z.sid ≠ sid := by
  intro l
  induction l with
  | nil => intro pre s post h; simp [SessionCluster.splitBySid] at h
  | cons a rest ih =>
      intro pre s post h
      by_cases ha : a.sid = sid
      · simp only [SessionCluster.splitBySid, if_pos ha, Option.some.injEq,
          Prod.mk.injEq] at h
        obtain ⟨h1, h2, h3⟩ := h
        refine ⟨by rw [← h1, ← h2, ← h3]; rfl, by rw [← h2]; exact ha,
          by rw [← h1]; simp⟩
      · simp only [SessionCluster.splitBySid, if_neg ha, Option.map_eq_some'] at h
        obtain ⟨r, hr, heq⟩ := h
        obtain ⟨hpre, hs, hpost⟩ :
            a :: r.1 = pre ∧ r.2.1 = s ∧ r.2.2 = post := by
          refine ⟨congrArg Prod.fst heq, ?_, ?_⟩
          · exact congrArg (fun p => p.2.1) heq
          · exact congrArg (fun p => p.2.2) heq
        obtain ⟨he1, he2, he3⟩ := ih r.1 r.2.1 r.2.2 (by rw [hr])
        subst hpre hs hpost
        refine ⟨by simp [he1], he2, ?_⟩
        intro z hz
        rcases List.mem_cons.mp hz with rfl | hz'
        · exact ha
        · exact he3 z hz'

theorem SessionCluster.splitBySid_first (sid : Nat) :
    ∀ (pre : List CSession) (s : CSession) (post : List CSession),
      (∀ z ∈ pre, z.sid ≠ sid) → s.sid = sid →
      SessionCluster.splitBySid sid (pre ++ s :: post) = some (pre, s, post) := by
  intro pre
  induction pre with
  | nil => intro s post _ hs; simp [SessionCluster.splitBySid, hs]
  | cons a pre' ih =>
      intro s post hpre hs
      have ha : a.sid ≠ sid := hpre a (by simp)
      show SessionCluster.splitBySid sid (a :: (pre' ++ s :: post)) = _
      simp only [SessionCluster.splitBySid, if_neg ha]
      rw [ih s post (fun z hz => hpre z (by simp [hz])) hs]
      rfl

/-- Ascending share_count order, the order maintained by
SessionCluster::sort so the least-loaded session is at the head. -/
def shareLE (a b : CSession) : Prop := a.share_count ≤ b.share_count

instance : DecidableRel shareLE := fun a b =>
  inferInstanceAs (Decidable (a.share_count ≤ b.share_count))

theorem SessionCluster.dropWhile_lower (q : Int) :
    ∀ (post : List CSession), List.Pairwise shareLE post →
      ∀ b ∈ post.dropWhile (fun p => decide (p.share_count < q)),
        q ≤ b.share_count := by
  intro post
  induction post with
  | nil => intro _ b hb; simp at hb
  | cons a rest ih =>
      intro hp b hb
      by_cases ha : a.share_count < q
      · rw [List.dropWhile_cons_of_pos (by simpa using ha)] at hb
        exact ih hp.tail b hb
      · rw [List.dropWhile_cons_of_neg (by simpa using ha)] at hb
        rcases List.mem_cons.mp hb with rfl | hb'
        · omega
        · have := List.rel_of_pairwise_cons hp hb'
          unfold shareLE at this
          omega

theorem SessionCluster.sortMove_sorted_of_bump (pre : List CSession)
    (y : CSession) (post : List CSession)
    (hs : List.Pairwise shareLE (pre ++ y :: post)) :
    List.Pairwise shareLE (SessionCluster.sortMove pre y.bump post) := by
  obtain ⟨hpre, hyp, hcross⟩ := List.pairwise_append.mp hs
  have hpost : List.Pairwise shareLE post := hyp.tail
  have hyle : ∀ b ∈ post, y.share_count ≤ b.share_count :=
    fun b hb => List.rel_of_pairwise_cons hyp hb
  have hpley : ∀ a ∈ pre, a.share_count ≤ y.share_count :=
    fun a ha => hcross a ha y (by simp)
  have hxshare : y.bump.share_count = y.share_count + 1 := rfl
  have hcond : pre.reverse.takeWhile
      (fun p => decide (y.bump.share_count < p.share_count)) = [] := by
    cases hrev : pre.reverse with
    | nil => rfl
    | cons a t =>
        have ha : a ∈ pre := by
          have : a ∈ pre.reverse := by rw [hrev]; simp
          simpa using this
        rw [List.takeWhile_cons_of_neg]
        simp only [hxshare, decide_eq_true_eq]
        have := hpley a ha
        omega
  unfold SessionCluster.sortMove
  rw [if_pos hcond]
  rw [List.append_assoc]
  rw [List.pairwise_append]
  refine ⟨hpre, ?_, ?_⟩
  · rw [List.pairwise_append]
    refine ⟨List.Pairwise.sublist (List.takeWhile_sublist _) hpost, ?_, ?_⟩
    · rw [List.pairwise_cons]
      refine ⟨fun b hb => SessionCluster.dropWhile_lower _ post hpost b hb,
        List.Pairwise.sublist (List.dropWhile_sublist _) hpost⟩
    · intro a ha b hb
      have ha' : a.share_count < y.bump.share_count := by
        have := List.mem_takeWhile_imp ha
        simpa using this
      rcases List.mem_cons.mp hb with rfl | hb'
      · unfold shareLE; omega
      · have hbge := SessionCluster.dropWhile_lower _ post hpost b hb'
        unfold shareLE; omega
  · intro a ha b hb
    have hay := hpley a ha
    rcases List.mem_append.mp hb with hb1 | hb2
    · have : b ∈ post := (List.takeWhile_sublist _).subset hb1
      have := hyle b this
      unfold shareLE; omega
    · rcases List.mem_cons.mp hb2 with rfl | hb'
      · unfold shareLE; rw [hxshare]; omega
      · have : b ∈ post := (List.dropWhile_sublist _).subset hb'
        have := hyle b this
        unfold shareLE; omega

theorem SessionCluster.allocGo_some_spec (Q M : Int) :
    ∀ (l pre : List CSession) (s' : CSession) (l' : List CSession),
      SessionCluster.allocGo Q M pre l = some (s', l') →
      ∃ l1 y l2, l = l1 ++ y :: l2 ∧
        (∀ z ∈ l1, SessionCluster.fits Q M z = false) ∧
        SessionCluster.fits Q M y = true ∧ s' = y.bump ∧
        l' = SessionCluster.sortMove (pre ++ l1) y.bump l2 := by
  intro l
  induction l with
  | nil => intro pre s' l' h; simp [SessionCluster.allocGo] at h
  | cons s rest ih =>
      intro pre s' l' h
      by_cases hf : SessionCluster.fits Q M s
      · simp only [SessionCluster.allocGo, if_pos hf, Option.some.injEq,
          Prod.mk.injEq] at h
        exact ⟨[], s, rest, by simp, by simp, hf,
          h.1.symm, by simp [← h.2]⟩
      · simp only [SessionCluster.allocGo, if_neg hf] at h
        obtain ⟨l1, y, l2, hl, hl1, hy, hs', hl'⟩ := ih (pre ++ [s]) s' l' h
        refine ⟨s :: l1, y, l2, by simp [hl], ?_, hy, hs', ?_⟩
        · intro z hz
          rcases List.mem_cons.mp hz with rfl | hz'
          · exact Bool.eq_false_iff.mpr hf
          · exact hl1 z hz'
        · rw [hl']; simp

/-- One step of cluster usage: a muxer allocating a session from the
cluster (SessionCluster::alloc), or a muxer releasing its share
(SessionCluster::free at a given time). -/
inductive ClusterOp : Type
  | alloc : Nat → ClusterOp
  | free : Nat → Int → ClusterOp

/-- Apply one ClusterOp to a cluster. -/
def SessionCluster.step (c : SessionCluster) : ClusterOp → SessionCluster
  | .alloc sid => (c.alloc sid).1
  | .free sid now => c.free sid now

/-- Apply a sequence of ClusterOps in order. -/
def SessionCluster.runOps (c : SessionCluster) : List ClusterOp → SessionCluster
  | [] => c
  | op :: ops => (c.step op).runOps ops

/-- The admission bounds of spec section 8 item 5: when the limits are
positive, every session respects share_count at most max_queue and
message_count at most max_messages. -/
def SessionCluster.admissible (c : SessionCluster) : Prop :=
  ∀ s ∈ c.sessions,
    (0 < c.max_queue → s.share_count ≤ c.max_queue) ∧
    (0 < c.max_messages → s.message_count ≤ c.max_messages)

theorem SessionCluster.fits_bounds (Q M : Int) (s : CSession)
    (h : SessionCluster.fits Q M s = true) :
    s.is_closed = false ∧ (0 < Q → s.share_count < Q) ∧
      (0 < M → s.message_count < M) := by
  unfold SessionCluster.fits at h
  simp only [Bool.and_eq_true, Bool.or_eq_true, Bool.not_eq_true',
    decide_eq_true_eq] at h
  refine ⟨h.1.1, ?_, ?_⟩ <;> intro hlim
  · rcases h.1.2 with h' | h' <;> omega
  · rcases h.2 with h' | h' <;> omega

theorem SessionCluster.step_admissible (c : SessionCluster) (op : ClusterOp)
    (h : c.admissible) : (c.step op).admissible := by
  cases op with
  | alloc sid =>
      show ((c.alloc sid).1).admissible
      cases hgo : SessionCluster.allocGo c.max_queue c.max_messages [] c.sessions with
      | none =>
          have he : (c.alloc sid).1
              = { c with sessions := CSession.fresh sid :: c.sessions } := by
            simp [SessionCluster.alloc, hgo]
          rw [he]
          intro s hs
          simp only [List.mem_cons] at hs
          show (0 < c.max_queue → s.share_count ≤ c.max_queue) ∧
            (0 < c.max_messages → s.message_count ≤ c.max_messages)
          rcases hs with rfl | hs'
          · constructor <;> intro hlim <;> simp [CSession.fresh] <;> omega
          · exact h s hs'
      | some r =>
          have he : (c.alloc sid).1 = { c with sessions := r.2 } := by
            simp [SessionCluster.alloc, hgo]
          rw [he]
          obtain ⟨l1, y, l2, hl, _, hy, _, hl'⟩ :=
            SessionCluster.allocGo_some_spec _ _ c.sessions [] r.1 r.2 hgo
          intro s hs
          show (0 < c.max_queue → s.share_count ≤ c.max_queue) ∧
            (0 < c.max_messages → s.message_count ≤ c.max_messages)
          have hs2 : s ∈ r.2 := hs
          rw [hl'] at hs2
          have hmem := (SessionCluster.sortMove_perm ([] ++ l1) y.bump l2).mem_iff.mp hs2
          simp only [List.nil_append, List.mem_append, List.mem_cons] at hmem
          obtain ⟨_, hyQ, hyM⟩ := SessionCluster.fits_bounds _ _ y hy
          rcases hmem with h1 | rfl | h2
          · exact h s (by rw [hl]; simp [h1])
          · constructor <;> intro hlim <;> simp [CSession.bump]
            · have := hyQ hlim; omega
            · have := hyM hlim; omega
          · exact h s (by rw [hl]; simp [h2])
  | free sid now =>
      show (c.free sid now).admissible
      cases hsp : SessionCluster.splitBySid sid c.sessions with
      | none =>
          have he : c.free sid now = c := by
            simp [SessionCluster.free, hsp]
          rw [he]; exact h
      | some r =>
          obtain ⟨pre, x, post⟩ := r
          obtain ⟨hl, _, _⟩ :=
            SessionCluster.splitBySid_sound sid c.sessions pre x post hsp
          have he : c.free sid now
              = { c with sessions := SessionCluster.sortMove pre (x.unshare now) post } := by
            simp only [SessionCluster.free, hsp]
          rw [he]
          intro s hs
          show (0 < c.max_queue → s.share_count ≤ c.max_queue) ∧
            (0 < c.max_messages → s.message_count ≤ c.max_messages)
          have hmem := (SessionCluster.sortMove_perm pre _ post).mem_iff.mp hs
          simp only [List.mem_append, List.mem_cons] at hmem
          rcases hmem with h1 | heq | h2
          · exact h s (by rw [hl]; simp [h1])
          · have hx := h x (by rw [hl]; simp)
            unfold CSession.unshare at heq
            by_cases hc : x.share_count - 1 = 0
            · rw [if_pos hc] at heq
              subst heq
              constructor <;> intro hlim <;> simp
              · have := hx.1 hlim; omega
              · exact hx.2 hlim
            · rw [if_neg hc] at heq
              subst heq
              constructor <;> intro hlim <;> simp
              · have := hx.1 hlim; omega
              · exact hx.2 hlim
          · exact h s (by rw [hl]; simp [h2])

theorem SessionCluster.runOps_admissible (ops : List ClusterOp) :
    ∀ (c : SessionCluster), c.admissible → (c.runOps ops).admissible := by
  induction ops with
  | nil => exact fun c h => h
  | cons op rest ih =>
      intro c h
      exact ih (c.step op) (SessionCluster.step_admissible c op h)

/-- C3: SessionCluster::alloc returns the first not-closed session whose
share_count is below max_queue (0 meaning unlimited) and message_count is
below max_messages (same convention), with both counters incremented and
the session re-sorted into place so that ascending share_count order is
preserved; it creates a fresh session exactly when no existing session
qualifies; and over any sequence of alloc/free operations every session of
the cluster keeps share_count at most max_queue and message_count at most
max_messages whenever those limits are positive. -/
theorem session_cluster_alloc_spec (c : SessionCluster) (sid : Nat) :
    (∀ l1 y l2, c.sessions = l1 ++ y :: l2 →
        (∀ z ∈ l1, SessionCluster.fits c.max_queue c.max_messages z = false) →
        SessionCluster.fits c.max_queue c.max_messages y = true →
        c.alloc sid
            = ({ c with sessions := SessionCluster.sortMove l1 y.bump l2 },
               y.bump, false) ∧
          ((c.alloc sid).1.sessions).Perm (l1 ++ y.bump :: l2) ∧
          (List.Pairwise shareLE c.sessions →
            List.Pairwise shareLE (c.alloc sid).1.sessions)) ∧
    ((∀ s ∈ c.sessions,
        SessionCluster.fits c.max_queue c.max_messages s = false) →
      c.alloc sid = ({ c with sessions := CSession.fresh sid :: c.sessions },
        CSession.fresh sid, true)) ∧
    (∀ ops : List ClusterOp, c.admissible → (c.runOps ops).admissible) := by
  refine ⟨?_, ?_, fun ops h => SessionCluster.runOps_admissible ops c h⟩
  · intro l1 y l2 hdec hl1 hy
    have hgo := SessionCluster.allocGo_first_fit c.max_queue c.max_messages
      l1 l2 [] y hl1 hy
    rw [← hdec] at hgo
    have halloc : c.alloc sid
        = ({ c with sessions := SessionCluster.sortMove l1 y.bump l2 },
           y.bump, false) := by
      simp [SessionCluster.alloc, hgo]
    refine ⟨halloc, ?_, ?_⟩
    · rw [halloc]
      exact (SessionCluster.sortMove_perm l1 y.bump l2)
    · intro hsort
      rw [halloc]
      exact SessionCluster.sortMove_sorted_of_bump l1 y l2 (hdec ▸ hsort)
  · intro hall
    have hgo := (SessionCluster.allocGo_none c.max_queue c.max_messages
      c.sessions []).mpr hall
    simp [SessionCluster.alloc, hgo]

/-- Witness for session_cluster_alloc_spec: a one-session cluster with
limits 2/2 whose session fits, allocated once. -/
theorem session_cluster_alloc_spec_witness :
    ((⟨[⟨0, 1, 1, 0, false, false⟩], 60, 2, 2, false⟩ :
        SessionCluster).sessions
      = [] ++ (⟨0, 1, 1, 0, false, false⟩ : CSession) :: [] ∧
     (∀ z ∈ ([] : List CSession), SessionCluster.fits 2 2 z = false) ∧
     SessionCluster.fits 2 2 ⟨0, 1, 1, 0, false, false⟩ = true) ∧
    ((⟨[⟨0, 1, 1, 0, false, false⟩], 60, 2, 2, false⟩ :
        SessionCluster).alloc 9
      = ({ (⟨[⟨0, 1, 1, 0, false, false⟩], 60, 2, 2, false⟩ : SessionCluster)
            with sessions := SessionCluster.sortMove [] (CSession.bump ⟨0, 1, 1, 0, false, false⟩) [] },
         CSession.bump ⟨0, 1, 1, 0, false, false⟩, false) ∧
     (((⟨[⟨0, 1, 1, 0, false, false⟩], 60, 2, 2, false⟩ :
          SessionCluster).alloc 9).1.sessions).Perm
        ([] ++ CSession.bump ⟨0, 1, 1, 0, false, false⟩ :: []) ∧
     (List.Pairwise shareLE (⟨[⟨0, 1, 1, 0, false, false⟩], 60, 2, 2, false⟩ :
          SessionCluster).sessions →
       List.Pairwise shareLE ((⟨[⟨0, 1, 1, 0, false, false⟩], 60, 2, 2,
          false⟩ : SessionCluster).alloc 9).1.sessions)) :=
  ⟨⟨rfl, by simp, by decide⟩,
   (session_cluster_alloc_spec ⟨[⟨0, 1, 1, 0, false, false⟩], 60, 2, 2,
      false⟩ 9).1 [] ⟨0, 1, 1, 0, false, false⟩ [] rfl (by simp) (by decide)⟩

/-- Accounting state of one MuxBase::Session: its share_count together with
the number of live Streams opened on it and the number of muxers parked in
its m_waiting_muxers list. -/
structure ShareState : Type where
  share_count : Int
  open_streams : Nat
  waiting_muxers : Nat
  deriving DecidableEq, Repr

/-- Reachable accounting states of one session. The constructors mirror the
code paths touching share_count, streams and the waiting list:
create - a session is built by SessionCluster::alloc for the muxer that
requested it (mux.cpp 256-260, counters modelled from the spec as in
CSession.fresh), and that muxer either opens a stream right away
(mux.cpp 126-128) or parks itself on the pending session (mux.cpp 121-124,
140-145); acquire - another muxer allocates the same session, incrementing
share_count (mux.cpp 248) before opening a stream or parking; openPending -
Session::set_pending(false) flushes every waiting muxer into a freshly
opened stream (mux.cpp 181-191, spec 4.5); releaseStream / releaseWaiting -
MuxBase::reset (mux.cpp 84-97) closes its stream or leaves the waiting
list, then Session::free leads to SessionCluster::free decrementing
share_count by one (mux.cpp 263-269). -/
inductive ShareReachable : ShareState → Prop
  | create (pending : Bool) :
      ShareReachable ⟨1, if pending then 0 else 1, if pending then 1 else 0⟩
  | acquire (st : ShareState) (pending : Bool) :
      ShareReachable st →
      ShareReachable ⟨st.share_count + 1,
        if pending then st.open_streams else st.open_streams + 1,
        if pending then st.waiting_muxers + 1 else st.waiting_muxers⟩
  | openPending (st : ShareState) :
      ShareReachable st →
      ShareReachable ⟨st.share_count, st.open_streams + st.waiting_muxers, 0⟩
  | releaseStream (st : ShareState) :
      ShareReachable st → 0 < st.open_streams →
      ShareReachable
        ⟨st.share_count - 1, st.open_streams - 1, st.waiting_muxers⟩
  | releaseWaiting (st : ShareState) :
      ShareReachable st → 0 < st.waiting_muxers →
      ShareReachable
        ⟨st.share_count - 1, st.open_streams, st.waiting_muxers - 1⟩

/-- C2: in every reachable accounting state, a Session's share_count equals
the number of live Streams plus the number of muxers waiting for it; and on
the cluster, alloc leaves the returned session with share_count one above
the chosen session's (1 for a fresh session, counting the new user), while
free decrements the session's share_count by exactly one. -/
theorem session_share_count_accounting :
    (∀ st : ShareState, ShareReachable st →
        st.share_count = st.open_streams + st.waiting_muxers) ∧
    (∀ (c : SessionCluster) (sid : Nat) l1 y l2,
        c.sessions = l1 ++ y :: l2 →
        (∀ z ∈ l1, SessionCluster.fits c.max_queue c.max_messages z = false) →
        SessionCluster.fits c.max_queue c.max_messages y = true →
        ((c.alloc sid).2.1).share_count = y.share_count + 1) ∧
    (∀ (c : SessionCluster) (sid : Nat),
        (∀ s ∈ c.sessions,
          SessionCluster.fits c.max_queue c.max_messages s = false) →
        ((c.alloc sid).2.1).share_count = 1) ∧
    (∀ (c : SessionCluster) (sid : Nat) (now : Int) pre x post,
        c.sessions = pre ++ x :: post → (∀ z ∈ pre, z.sid ≠ sid) →
        x.sid = sid →
        ((c.free sid now).sessions).Perm (pre ++ x.unshare now :: post) ∧
        (x.unshare now).share_count = x.share_count - 1) := by
  refine ⟨?_, ?_, ?_, ?_⟩
  · intro st h
    induction h with
    | create pending => cases pending <;> simp
    | acquire st pending _ ih =>
        cases pending <;> simp only [] <;> push_cast <;> omega
    | openPending st _ ih => simp only [] <;> push_cast <;> omega
    | releaseStream st _ hpos ih => simp only [] <;> push_cast <;> omega
    | releaseWaiting st _ hpos ih => simp only [] <;> push_cast <;> omega
  · intro c sid l1 y l2 hdec hl1 hy
    have hgo := SessionCluster.allocGo_first_fit c.max_queue c.max_messages
      l1 l2 [] y hl1 hy
    rw [← hdec] at hgo
    simp [SessionCluster.alloc, hgo, CSession.bump]
  · intro c sid hall
    have hgo := (SessionCluster.allocGo_none c.max_queue c.max_messages
      c.sessions []).mpr hall
    simp [SessionCluster.alloc, hgo, CSession.fresh]
  · intro c sid now pre x post hdec hpre hx
    have hsp : SessionCluster.splitBySid sid c.sessions = some (pre, x, post) := by
      rw [hdec]; exact SessionCluster.splitBySid_first sid pre x post hpre hx
    have he : c.free sid now
        = { c with sessions := SessionCluster.sortMove pre (x.unshare now) post } := by
      simp only [SessionCluster.free, hsp]
    constructor
    · rw [he]
      exact SessionCluster.sortMove_perm pre (x.unshare now) post
    · unfold CSession.unshare
      split <;> simp

/-- Witness for session_share_count_accounting: a session acquired twice
while pending once, and a concrete cluster free. -/
theorem session_share_count_accounting_witness :
    (ShareReachable ⟨2, 1, 1⟩ ∧
      (⟨2, 1, 1⟩ : ShareState).share_count
        = (⟨2, 1, 1⟩ : ShareState).open_streams
          + (⟨2, 1, 1⟩ : ShareState).waiting_muxers) ∧
    ((⟨[⟨3, 1, 1, 0, false, false⟩], 60, 0, 0, false⟩ :
        SessionCluster).sessions
        = [] ++ (⟨3, 1, 1, 0, false, false⟩ : CSession) :: [] ∧
      ((⟨[⟨3, 1, 1, 0, false, false⟩], 60, 0, 0, false⟩ :
        SessionCluster).free 3 100).sessions.Perm
        ([] ++ CSession.unshare ⟨3, 1, 1, 0, false, false⟩ 100 :: []) ∧
      (CSession.unshare ⟨3, 1, 1, 0, false, false⟩ 100).share_count
        = (⟨3, 1, 1, 0, false, false⟩ : CSession).share_count - 1) := by
  have hreach : ShareReachable ⟨2, 1, 1⟩ := by
    have h1 := ShareReachable.create false
    have h2 := ShareReachable.acquire ⟨1, 1, 0⟩ true h1
    simpa using h2
  refine ⟨⟨hreach, session_share_count_accounting.1 _ hreach⟩, rfl, ?_, ?_⟩
  · exact ((session_share_count_accounting.2.2.2)
      ⟨[⟨3, 1, 1, 0, false, false⟩], 60, 0, 0, false⟩ 3 100 [] _ []
      rfl (by simp) rfl).1
  · exact ((session_share_count_accounting.2.2.2)
      ⟨[⟨3, 1, 1, 0, false, false⟩], 60, 0, 0, false⟩ 3 100 [] _ []
      rfl (by simp) rfl).2

/-- MuxBase::Session::on_reply (mux.cpp lines 220-225): forward the reply
event to the output, then set the closed flag when it is a StreamEnd. The
first component is the forwarded output, the second the closed flag after
the event. -/
def Session.on_reply (closed : Bool) (evt : Event) : List Event × Bool :=
  ([evt],
   match evt with
   | .streamEnd _ => true
   | _ => closed)

/-- C10: a StreamEnd on the session reply path is forwarded and then marks
the session closed (any other event leaves the flag unchanged), and
SessionCluster::alloc never hands out a closed session: the session it
returns, existing or fresh, always has is_closed false. -/
theorem session_close_on_stream_end (closed : Bool) (e : EndError)
    (c : SessionCluster) (sid : Nat) :
    Session.on_reply closed (Event.streamEnd e)
        = ([Event.streamEnd e], true) ∧
    (∀ evt, (∀ e', evt ≠ Event.streamEnd e') →
        Session.on_reply closed evt = ([evt], closed)) ∧
    ((c.alloc sid).2.1).is_closed = false := by
  refine ⟨rfl, ?_, ?_⟩
  · intro evt hne
    cases evt with
    | streamEnd e' => exact absurd rfl (hne e')
    | streamStart => rfl
    | messageStart h => rfl
    | data b => rfl
    | messageEnd t => rfl
  · cases hgo : SessionCluster.allocGo c.max_queue c.max_messages [] c.sessions with
    | none => simp [SessionCluster.alloc, hgo, CSession.fresh]
    | some r =>
        obtain ⟨l1, y, l2, _, _, hy, hs', _⟩ :=
          SessionCluster.allocGo_some_spec _ _ c.sessions [] r.1 r.2 hgo
        have hopen : y.is_closed = false :=
          (SessionCluster.fits_bounds _ _ y hy).1
        have : (c.alloc sid).2.1 = r.1 := by
          simp [SessionCluster.alloc, hgo]
        rw [this, hs']
        exact hopen

/-- Witness for session_close_on_stream_end at concrete inputs: a closed
session in the cluster is skipped in favor of a fresh one. -/
theorem session_close_on_stream_end_witness :
    (Session.on_reply false (Event.streamEnd .noError)
        = ([Event.streamEnd .noError], true)) ∧
    ((∀ e', Event.messageStart none ≠ Event.streamEnd e') ∧
      Session.on_reply false (Event.messageStart none)
        = ([Event.messageStart none], false)) ∧
    (((⟨[⟨4, 0, 1, 0, true, true⟩], 60, 0, 0, false⟩ :
        SessionCluster).alloc 8).2.1).is_closed = false :=
  ⟨(session_close_on_stream_end false .noError
      ⟨[⟨4, 0, 1, 0, true, true⟩], 60, 0, 0, false⟩ 8).1,
   ⟨fun e' => by simp,
    (session_close_on_stream_end false .noError
      ⟨[⟨4, 0, 1, 0, true, true⟩], 60, 0, 0, false⟩ 8).2.1 _ (fun e' => by simp)⟩,
   (session_close_on_stream_end false .noError
      ⟨[⟨4, 0, 1, 0, true, true⟩], 60, 0, 0, false⟩ 8).2.2⟩

/-- The per-session recycling condition of SessionCluster::recycle
(mux.cpp lines 337-339): the session is closed, or the cluster's weak key
object is gone, or the lifetime message budget is exhausted (only when
max_messages is positive), or the session has been free for at least
max_idle seconds (max_idle is scaled to milliseconds at line 332). -/
def SessionCluster.shouldRecycle (c : SessionCluster) (now : Int)
    (s : CSession) : Bool :=
  s.is_closed || c.weak_ptr_gone
    || (decide (0 < c.max_messages)
        && decide (c.max_messages ≤ s.message_count))
    || decide (c.max_idle * 1000 ≤ now - s.free_time)

/-- Result of one recycling pass over a cluster: surviving sessions,
recycled sessions, StreamEnd events delivered to unlinked pipelines, and
whether the cluster was removed from its pool because the session list
became empty during a discard. -/
structure RecycleResult : Type where
  remaining : List CSession
  recycled : List CSession
  outputs : List (Nat × Event)
  cluster_removed : Bool
  deriving DecidableEq, Repr

/-- The loop of SessionCluster::recycle (mux.cpp lines 331-345): walk the
session list from the head and stop at the first session still shared;
recycle every free session satisfying shouldRecycle by unlinking its
pipeline (Session::unlink, mux.cpp lines 199-206, which emits a StreamEnd
into the pipeline when one is linked) and detaching it from the cluster
(Session::detach, then SessionCluster::discard whose sort(nullptr) call
removes the cluster from its pool map and frees it when the session list
has become empty, mux.cpp lines 271-313). kept accumulates the sessions
already retained. -/
def SessionCluster.recycleGo (c : SessionCluster) (now : Int) :
    List CSession → List CSession → RecycleResult
  | kept, [] => ⟨kept, [], [], false⟩
  | kept, s :: rest =>
      if 0 < s.share_count then ⟨kept ++ s :: rest, [], [], false⟩
      else if c.shouldRecycle now s then
        let r := c.recycleGo now kept rest
        ⟨r.remaining, s :: r.recycled,
         (if s.linked then [(s.sid, Event.streamEnd .noError)] else [])
           ++ r.outputs,
         (kept.isEmpty && rest.isEmpty) || r.cluster_removed⟩
      else c.recycleGo now (kept ++ [s]) rest

/-- One recycling pass of SessionCluster::recycle over the whole list. -/
def SessionCluster.recycle (c : SessionCluster) (now : Int) : RecycleResult :=
  c.recycleGo now [] c.sessions

theorem SessionCluster.recycleGo_spec (c : SessionCluster) (now : Int) :
    ∀ (l kept : List CSession),
      (c.recycleGo now kept l).recycled
        = (l.takeWhile (fun s => !decide (0 < s.share_count))).filter
            (c.shouldRecycle now) ∧
      (c.recycleGo now kept l).remaining
        = kept ++ (l.takeWhile (fun s => !decide (0 < s.share_count))).filter
              (fun s => !(c.shouldRecycle now s))
          ++ l.dropWhile (fun s => !decide (0 < s.share_count)) ∧
      (c.recycleGo now kept l).outputs
        = ((c.recycleGo now kept l).recycled.filter (fun s => s.linked)).map
            (fun s => (s.sid, Event.streamEnd .noError)) ∧
      ((c.recycleGo now kept l).cluster_removed = true ↔
        (kept = [] ∧ l ≠ [] ∧ (c.recycleGo now kept l).remaining = [])) := by
  intro l
  induction l with
  | nil =>
      intro kept
      refine ⟨rfl, by simp [SessionCluster.recycleGo], rfl, ?_⟩
      simp [SessionCluster.recycleGo]
  | cons s rest ih =>
      intro kept
      by_cases hsh : 0 < s.share_count
      · refine ⟨?_, ?_, ?_, ?_⟩ <;>
          simp [SessionCluster.recycleGo, hsh, List.takeWhile_cons,
            List.dropWhile_cons]
      · by_cases hrec : c.shouldRecycle now s = true
        · obtain ⟨ih1, ih2, ih3, ih4⟩ := ih kept
          have hgo : c.recycleGo now kept (s :: rest)
              = ⟨(c.recycleGo now kept rest).remaining,
                 s :: (c.recycleGo now kept rest).recycled,
                 (if s.linked then [(s.sid, Event.streamEnd .noError)] else [])
                   ++ (c.recycleGo now kept rest).outputs,
                 (kept.isEmpty && rest.isEmpty)
                   || (c.recycleGo now kept rest).cluster_removed⟩ := by
            simp [SessionCluster.recycleGo, hsh, hrec]
          refine ⟨?_, ?_, ?_, ?_⟩
          · rw [hgo]
            simp [List.takeWhile_cons, hsh, hrec, ih1]
          · rw [hgo]
            simp only []
            rw [ih2]
            simp [List.takeWhile_cons, List.dropWhile_cons, hsh, hrec]
          · rw [hgo]
            simp only []
            rw [ih3, ih1]
            by_cases hl : s.linked <;> simp [hl]
          · rw [hgo]
            simp only []
            by_cases hre : rest = []
            · subst hre
              have hnil : c.recycleGo now kept [] = ⟨kept, [], [], false⟩ := rfl
              rw [hnil]
              simp [List.isEmpty_iff]
            · have hrem0 : rest.isEmpty = false := by
                simpa [List.isEmpty_iff] using hre
              rw [hrem0]
              simp only [Bool.and_false, Bool.or_false, Bool.false_or]
              exact ih4.trans (by
                constructor
                · rintro ⟨h1, _, h3⟩; exact ⟨h1, by simp, h3⟩
                · rintro ⟨h1, _, h3⟩; exact ⟨h1, hre, h3⟩)
        · obtain ⟨ih1, ih2, ih3, ih4⟩ := ih (kept ++ [s])
          have hgo : c.recycleGo now kept (s :: rest)
              = c.recycleGo now (kept ++ [s]) rest := by
            simp [SessionCluster.recycleGo, hsh, hrec]
          refine ⟨?_, ?_, ?_, ?_⟩
          · rw [hgo, ih1]
            simp [List.takeWhile_cons, hsh, hrec]
          · rw [hgo, ih2]
            simp [List.takeWhile_cons, List.dropWhile_cons, hsh, hrec]
          · rw [hgo]
            exact ih3
          · rw [hgo]
            constructor
            · intro hk
              obtain ⟨h1, _, _⟩ := ih4.mp hk
              exact absurd h1 (by simp)
            · intro ⟨_, _, hrem⟩
              exfalso
              rw [ih2] at hrem
              simp at hrem

theorem SessionCluster.takeWhile_free_eq (l : List CSession)
    (hpos : ∀ s ∈ l, 0 ≤ s.share_count) :
    l.takeWhile (fun s => !decide (0 < s.share_count))
        = l.takeWhile (fun s => decide (s.share_count = 0)) ∧
    l.dropWhile (fun s => !decide (0 < s.share_count))
        = l.dropWhile (fun s => decide (s.share_count = 0)) := by
  induction l with
  | nil => exact ⟨rfl, rfl⟩
  | cons a rest ih =>
      have ha : 0 ≤ a.share_count := hpos a (by simp)
      obtain ⟨ih1, ih2⟩ := ih (fun s hs => hpos s (by simp [hs]))
      by_cases h0 : a.share_count = 0
      · constructor
        · rw [List.takeWhile_cons_of_pos
              (by simp only [Bool.not_eq_eq_eq_not, Bool.not_true,
                decide_eq_false_iff_not]; omega),
            List.takeWhile_cons_of_pos (by simp [h0]), ih1]
        · rw [List.dropWhile_cons_of_pos
              (by simp only [Bool.not_eq_eq_eq_not, Bool.not_true,
                decide_eq_false_iff_not]; omega),
            List.dropWhile_cons_of_pos (by simp [h0]), ih2]
      · constructor
        · rw [List.takeWhile_cons_of_neg
              (by simp only [Bool.not_eq_eq_eq_not, Bool.not_true,
                decide_eq_false_iff_not, not_not]; omega),
            List.takeWhile_cons_of_neg (by simp [h0])]
        · rw [List.dropWhile_cons_of_neg
              (by simp only [Bool.not_eq_eq_eq_not, Bool.not_true,
                decide_eq_false_iff_not, not_not]; omega),
            List.dropWhile_cons_of_neg (by simp [h0])]

/-- C6: on a recycling pass, provided share counts are nonnegative, a
session is recycled (unlinked, with its linked pipeline receiving a
StreamEnd, and detached from the cluster) exactly when it lies in the
leading run of share_count-0 sessions and is closed, or the weak key object
is gone, or message_count has reached a positive max_messages, or it has
been free for at least max_idle seconds; the survivors keep their order,
every recycled linked session's pipeline receives the StreamEnd, and the
cluster is removed from its pool map and freed exactly when the pass
empties a nonempty session list. -/
theorem session_cluster_recycle_spec (c : SessionCluster) (now : Int)
    (hpos : ∀ s ∈ c.sessions, 0 ≤ s.share_count) :
    (c.recycle now).recycled
        = (c.sessions.takeWhile (fun s => decide (s.share_count = 0))).filter
            (c.shouldRecycle now) ∧
    (∀ s, s ∈ (c.recycle now).recycled ↔
        (s ∈ c.sessions.takeWhile (fun s => decide (s.share_count = 0)) ∧
          c.shouldRecycle now s = true)) ∧
    (c.recycle now).remaining
        = (c.sessions.takeWhile (fun s => decide (s.share_count = 0))).filter
            (fun s => !(c.shouldRecycle now s))
          ++ c.sessions.dropWhile (fun s => decide (s.share_count = 0)) ∧
    (c.recycle now).outputs
        = ((c.recycle now).recycled.filter (fun s => s.linked)).map
            (fun s => (s.sid, Event.streamEnd .noError)) ∧
    ((c.recycle now).cluster_removed = true ↔
        (c.sessions ≠ [] ∧ (c.recycle now).remaining = [])) := by
  obtain ⟨h1, h2, h3, h4⟩ :=
    SessionCluster.recycleGo_spec c now c.sessions []
  obtain ⟨htw, hdw⟩ := SessionCluster.takeWhile_free_eq c.sessions hpos
  have hr1 : (c.recycle now).recycled
      = (c.sessions.takeWhile (fun s => decide (s.share_count = 0))).filter
          (c.shouldRecycle now) := by
    show (c.recycleGo now [] c.sessions).recycled = _
    rw [h1, htw]
  refine ⟨hr1, ?_, ?_, ?_, ?_⟩
  · intro s
    rw [hr1, List.mem_filter]
  · show (c.recycleGo now [] c.sessions).remaining = _
    rw [h2, htw, hdw]
    simp
  · show (c.recycleGo now [] c.sessions).outputs = _
    exact h3
  · show (c.recycleGo now [] c.sessions).cluster_removed = true ↔ _
    rw [h4]
    constructor
    · rintro ⟨_, hne, hrem⟩; exact ⟨hne, hrem⟩
    · rintro ⟨hne, hrem⟩; exact ⟨rfl, hne, hrem⟩

/-- Concrete cluster for the recycling witness: a closed free session, a
healthy free session and a shared session. -/
def recycleDemo : SessionCluster :=
  ⟨[⟨1, 0, 1, 0, true, true⟩, ⟨2, 0, 1, 0, false, false⟩,
    ⟨3, 1, 1, 0, false, true⟩], 60, 0, 0, false⟩

/-- Witness for session_cluster_recycle_spec: on recycleDemo the closed
free session is recycled, the others survive. -/
theorem session_cluster_recycle_spec_witness :
    (∀ s ∈ recycleDemo.sessions, 0 ≤ s.share_count) ∧
    ((recycleDemo.recycle 10).recycled
        = (recycleDemo.sessions.takeWhile
            (fun s => decide (s.share_count = 0))).filter
            (recycleDemo.shouldRecycle 10) ∧
      (∀ s, s ∈ (recycleDemo.recycle 10).recycled ↔
          (s ∈ recycleDemo.sessions.takeWhile
              (fun s => decide (s.share_count = 0)) ∧
            recycleDemo.shouldRecycle 10 s = true)) ∧
      (recycleDemo.recycle 10).remaining
        = (recycleDemo.sessions.takeWhile
            (fun s => decide (s.share_count = 0))).filter
            (fun s => !(recycleDemo.shouldRecycle 10 s))
          ++ recycleDemo.sessions.dropWhile
              (fun s => decide (s.share_count = 0)) ∧
      (recycleDemo.recycle 10).outputs
        = ((recycleDemo.recycle 10).recycled.filter (fun s => s.linked)).map
            (fun s => (s.sid, Event.streamEnd .noError)) ∧
      ((recycleDemo.recycle 10).cluster_removed = true ↔
        (recycleDemo.sessions ≠ [] ∧
          (recycleDemo.recycle 10).remaining = []))) :=
  ⟨by decide, session_cluster_recycle_spec recycleDemo 10 (by decide)⟩

/-- Replay filter state (replay.cpp): the ordered capture buffer m_buffer,
the generation of the current sub-pipeline (incremented each time a fresh
sub-pipeline replaces the released one) and the m_replay_scheduled flag. -/
structure ReplayState : Type where
  buffer : List Event
  gen : Nat
  scheduled : Bool
  deriving DecidableEq, Repr

/-- Replay::process (replay.cpp lines 66-72): capture the event into the
buffer and forward it to the current sub-pipeline, identified by its
generation. -/
def ReplayState.process (r : ReplayState) (evt : Event) :
    ReplayState × List (Nat × Event) :=
  ({ r with buffer := r.buffer ++ [evt] }, [(r.gen, evt)])

/-- Folding Replay::process over an upstream event sequence. -/
def ReplayState.processRun (r : ReplayState) :
    List Event → ReplayState × List (Nat × Event)
  | [] => (r, [])
  | e :: es =>
      let x := r.process e
      let x' := x.1.processRun es
      (x'.1, x.2 ++ x'.2)

/-- Replay::schedule_replay (replay.cpp lines 74-82): arm the timer for the
next scheduler tick unless one is already armed. -/
def ReplayState.schedule_replay (r : ReplayState) : ReplayState :=
  if r.scheduled then r else { r with scheduled := true }

/-- ReplayReceiver::on_event (replay.cpp lines 99-108): a StreamEnd whose
error is REPLAY schedules a replay and is not forwarded downstream; every
other event from the sub-pipeline passes through unchanged. -/
def ReplayState.on_receive (r : ReplayState) (evt : Event) :
    ReplayState × List Event :=
  match evt with
  | .streamEnd .replay => (r.schedule_replay, [])
  | _ => (r, [evt])

/-- The scheduler tick running Replay::replay (replay.cpp lines 84-93) when
one is scheduled: release the old sub-pipeline, create a fresh one
(generation + 1) and re-emit every captured event into it as a clone, in
capture order. -/
def ReplayState.tick (r : ReplayState) : ReplayState × List (Nat × Event) :=
  if r.scheduled then
    ({ r with gen := r.gen + 1, scheduled := false },
     r.buffer.map (fun e => (r.gen + 1, e.clone)))
  else (r, [])

theorem ReplayState.processRun_spec (evts : List Event) :
    ∀ (r : ReplayState),
      (r.processRun evts).1.buffer = r.buffer ++ evts ∧
      (r.processRun evts).1.gen = r.gen ∧
      (r.processRun evts).1.scheduled = r.scheduled ∧
      (r.processRun evts).2 = evts.map (fun ev => (r.gen, ev)) := by
  induction evts with
  | nil => intro r; exact ⟨by simp [ReplayState.processRun], rfl, rfl, rfl⟩
  | cons e es ih =>
      intro r
      obtain ⟨ih1, ih2, ih3, ih4⟩ := ih (r.process e).1
      refine ⟨?_, ?_, ?_, ?_⟩
      · show ((r.process e).1.processRun es).1.buffer = _
        rw [ih1]
        simp [ReplayState.process]
      · show ((r.process e).1.processRun es).1.gen = _
        rw [ih2]; rfl
      · show ((r.process e).1.processRun es).1.scheduled = _
        rw [ih3]; rfl
      · show (r.process e).2 ++ ((r.process e).1.processRun es).2 = _
        rw [ih4]
        simp [ReplayState.process]

/-- C4: Replay captures every event and forwards it to the current
sub-pipeline; a StreamEnd carrying the REPLAY error is not forwarded
downstream and only schedules a replay, while any other event from the
sub-pipeline passes through unchanged; and the scheduled tick releases the
old sub-pipeline for a fresh one which receives a clone of every captured
event in the original capture order. -/
theorem replay_law (r : ReplayState) (evts : List Event) :
    ((r.processRun evts).1.buffer = r.buffer ++ evts ∧
      (r.processRun evts).2 = evts.map (fun ev => (r.gen, ev))) ∧
    (r.on_receive (Event.streamEnd .replay) = (r.schedule_replay, []) ∧
      (∀ evt, evt ≠ Event.streamEnd .replay → r.on_receive evt = (r, [evt]))) ∧
    (r.scheduled = true →
      r.tick = ({ r with gen := r.gen + 1, scheduled := false },
        r.buffer.map (fun ev => (r.gen + 1, ev.clone)))) ∧
    ((((⟨[], 0, false⟩ : ReplayState).processRun evts).1.on_receive
          (Event.streamEnd .replay)).1.tick.2
      = evts.map (fun ev => (1, ev.clone))) := by
  obtain ⟨h1, h2, h3, h4⟩ := ReplayState.processRun_spec evts r
  refine ⟨⟨h1, h4⟩, ⟨rfl, ?_⟩, ?_, ?_⟩
  · intro evt hne
    cases evt with
    | streamEnd e =>
        cases e with
        | replay => exact absurd rfl hne
        | noError => rfl
        | other k => rfl
    | streamStart => rfl
    | messageStart h => rfl
    | data b => rfl
    | messageEnd t => rfl
  · intro hsch
    simp [ReplayState.tick, hsch]
  · obtain ⟨g1, g2, g3, g4⟩ :=
      ReplayState.processRun_spec evts (⟨[], 0, false⟩ : ReplayState)
    set r0 := ((⟨[], 0, false⟩ : ReplayState).processRun evts).1 with hr0
    have hrec : (r0.on_receive (Event.streamEnd .replay)).1
        = r0.schedule_replay := rfl
    rw [hrec]
    have hs : r0.schedule_replay = { r0 with scheduled := true } := by
      unfold ReplayState.schedule_replay
      rw [g3]
      simp
    rw [hs]
    simp only [ReplayState.tick, if_pos rfl]
    rw [g1, g2]
    simp

/-- Witness for replay_law on a concrete single-event capture. -/
theorem replay_law_witness :
    (((⟨[], 0, false⟩ : ReplayState).processRun [Event.data [7]]).1.buffer
        = [] ++ [Event.data [7]] ∧
      ((⟨[], 0, false⟩ : ReplayState).processRun [Event.data [7]]).2
        = [Event.data [7]].map (fun ev => (0, ev))) ∧
    ((⟨[], 0, false⟩ : ReplayState).on_receive (Event.streamEnd .replay)
        = ((⟨[], 0, false⟩ : ReplayState).schedule_replay, []) ∧
      (∀ evt, evt ≠ Event.streamEnd .replay →
        (⟨[], 0, false⟩ : ReplayState).on_receive evt
          = (⟨[], 0, false⟩, [evt]))) ∧
    ((⟨[], 0, false⟩ : ReplayState).scheduled = true →
      (⟨[], 0, false⟩ : ReplayState).tick
        = ({ (⟨[], 0, false⟩ : ReplayState) with gen := 0 + 1, scheduled := false },
           ([] : List Event).map (fun ev => (0 + 1, ev.clone)))) ∧
    (((((⟨[], 0, false⟩ : ReplayState).processRun [Event.data [7]]).1.on_receive
          (Event.streamEnd .replay)).1.tick.2)
      = [Event.data [7]].map (fun ev => (1, ev.clone))) :=
  replay_law ⟨[], 0, false⟩ [Event.data [7]]

/-- One filter instance inside a live pipeline: the index of the template
it was cloned from (Filter::clone, pipeline.cpp lines 113-117) and its
mutable per-connection state, 0 when freshly cloned or reset. -/
structure PFilter : Type where
  template_id : Nat
  state : Nat
  deriving DecidableEq, Repr

/-- Filter::clone applied to one template: an identically configured fresh
instance with no per-connection state. -/
def cloneFilter (template_id : Nat) : PFilter := ⟨template_id, 0⟩

/-- A live or pooled Pipeline instance (pipeline.cpp): its identity, its
cloned filter chain and its installed context. -/
structure PPipeline : Type where
  pid : Nat
  filters : List PFilter
  ctx : Option Nat
  deriving DecidableEq, Repr

/-- Pipeline::reset (pipeline.cpp lines 160-168): reset every filter and
drop the context. -/
def PPipeline.reset (p : PPipeline) : PPipeline :=
  { p with filters := p.filters.map (fun f => { f with state := 0 }),
           ctx := none }

/-- PipelineDef, the pipeline layout (pipeline.cpp): the filter templates,
the singly linked free list m_pool (head first), the live list m_pipelines
and the m_allocated counter. -/
structure PipelineDef : Type where
  templates : List Nat
  pool : List PPipeline
  live : List PPipeline
  allocated : Nat
  deriving DecidableEq, Repr

/-- PipelineDef::alloc (pipeline.cpp lines 81-95): pop the free list if it
is non-empty, otherwise construct a new Pipeline — cloning each filter
template exactly once (pipeline.cpp lines 109-123) and incrementing
m_allocated — then install the context and push onto the live list. -/
def PipelineDef.alloc (d : PipelineDef) (ctx : Nat) :
    PipelineDef × PPipeline :=
  match d.pool with
  | p :: rest =>
      ({ d with pool := rest, live := d.live ++ [{ p with ctx := some ctx }] },
       { p with ctx := some ctx })
  | [] =>
      ({ d with allocated := d.allocated + 1,
                live := d.live ++ [⟨d.allocated, d.templates.map cloneFilter, some ctx⟩] },
       ⟨d.allocated, d.templates.map cloneFilter, some ctx⟩)

/-- Split the live list at the first pipeline carrying the given id. -/
def PipelineDef.splitByPid (pid : Nat) :
    List PPipeline → Option (List PPipeline × PPipeline × List PPipeline)
  | [] => none
  | p :: rest =>
      if p.pid = pid then some ([], p, rest)
      else (PipelineDef.splitByPid pid rest).map
        (fun r => (p :: r.1, r.2.1, r.2.2))

/-- Pipeline::on_recycle with PipelineDef::free (pipeline.cpp lines
149-152 and 97-103): reset the pipeline (resetting every filter) and push
it onto the head of the free list, removing it from the live list. -/
def PipelineDef.recycle (d : PipelineDef) (pid : Nat) : PipelineDef :=
  match PipelineDef.splitByPid pid d.live with
  | none => d
  | some (pre, p, post) =>
      { d with live := pre ++ post, pool := p.reset :: d.pool }

/-- A live pipeline processing events: its filters take arbitrary new
per-connection state. Models the dataflow between alloc and recycle. -/
def PipelineDef.work (d : PipelineDef) (pid : Nat) (st : Nat) : PipelineDef :=
  { d with live := d.live.map (fun p =>
      if p.pid = pid
      then { p with filters := p.filters.map (fun f => { f with state := st }) }
      else p) }

/-- One step of pipeline pool usage. -/
inductive PoolOp : Type
  | alloc : Nat → PoolOp
  | work : Nat → Nat → PoolOp
  | recycle : Nat → PoolOp

/-- Apply one PoolOp to a layout (the allocated pipeline of an alloc op is
the one returned by PipelineDef.alloc). -/
def PipelineDef.step (d : PipelineDef) : PoolOp → PipelineDef
  | .alloc ctx => (d.alloc ctx).1
  | .work pid st => d.work pid st
  | .recycle pid => d.recycle pid

/-- Apply a sequence of PoolOps in order. -/
def PipelineDef.runPool (d : PipelineDef) : List PoolOp → PipelineDef
  | [] => d
  | op :: ops => (d.step op).runPool ops

/-- Well-formedness of a layout's pools: pipeline identities are unique
across the live and free lists and below the allocation counter. -/
def PipelineDef.wf (d : PipelineDef) : Prop :=
  ((d.live ++ d.pool).map PPipeline.pid).Nodup ∧
  ∀ p ∈ d.live ++ d.pool, p.pid < d.allocated

theorem PipelineDef.splitByPid_sound (pid : Nat) :
    ∀ (l pre : List PPipeline) (p : PPipeline) (post : List PPipeline),
      PipelineDef.splitByPid pid l = some (pre, p, post) →
      l = pre ++ p :: post ∧ p.pid = pid := by
  intro l
  induction l with
  | nil => intro pre p post h; simp [PipelineDef.splitByPid] at h
  | cons a rest ih =>
      intro pre p post h
      by_cases ha : a.pid = pid
      · simp only [PipelineDef.splitByPid, if_pos ha, Option.some.injEq,
          Prod.mk.injEq] at h
        obtain ⟨h1, h2, h3⟩ := h
        exact ⟨by rw [← h1, ← h2, ← h3]; rfl, by rw [← h2]; exact ha⟩
      · simp only [PipelineDef.splitByPid, if_neg ha, Option.map_eq_some'] at h
        obtain ⟨r, hr, heq⟩ := h
        obtain ⟨he1, he2⟩ := ih r.1 r.2.1 r.2.2 (by rw [hr])
        have hpre : a :: r.1 = pre := congrArg Prod.fst heq
        have hp : r.2.1 = p := congrArg (fun x => x.2.1) heq
        have hpost : r.2.2 = post := congrArg (fun x => x.2.2) heq
        subst hpre hp hpost
        exact ⟨by simp [he1], he2⟩

theorem PipelineDef.step_wf (d : PipelineDef) (op : PoolOp) (h : d.wf) :
    (d.step op).wf := by
  obtain ⟨hnd, hlt⟩ := h
  cases op with
  | alloc ctx =>
      show ((d.alloc ctx).1).wf
      cases hp : d.pool with
      | cons p rest =>
          have he : (d.alloc ctx).1
              = { d with pool := rest,
                         live := d.live ++ [{ p with ctx := some ctx }] } := by
            simp [PipelineDef.alloc, hp]
          rw [he]
          have hmap : (((d.live ++ [{ p with ctx := some ctx }]) ++ rest).map
                PPipeline.pid)
              = ((d.live ++ p :: rest).map PPipeline.pid) := by
            simp
          constructor
          · show (((d.live ++ [{ p with ctx := some ctx }]) ++ rest).map
                PPipeline.pid).Nodup
            rw [hmap, ← hp]
            exact hnd
          · intro q hq
            show q.pid < d.allocated
            simp only [List.mem_append, List.mem_cons, List.mem_singleton,
              List.not_mem_nil, or_false] at hq
            rcases hq with (hq1 | hq1b) | hq2
            · exact hlt q (by simp [hq1])
            · rw [hq1b]
              exact hlt p (by simp [hp])
            · exact hlt q (by simp [hp, hq2])
      | nil =>
          have he : (d.alloc ctx).1
              = { d with allocated := d.allocated + 1,
                         live := d.live ++ [⟨d.allocated, d.templates.map cloneFilter, some ctx⟩] } := by
            simp [PipelineDef.alloc, hp]
          rw [he]
          constructor
          · show (((d.live
                ++ [(⟨d.allocated, d.templates.map cloneFilter, some ctx⟩ : PPipeline)])
                ++ d.pool).map PPipeline.pid).Nodup
            rw [hp]
            simp only [List.append_nil, List.map_append]
            rw [List.nodup_append]
            refine ⟨?_, by simp, ?_⟩
            · have := hnd
              rw [hp] at this
              simpa using this
            · intro a ha hb
              simp only [List.map_cons, List.map_nil, List.mem_singleton] at hb
              subst hb
              obtain ⟨q, hq, hqe⟩ := List.mem_map.mp ha
              have := hlt q (by simp [hq])
              omega
          · intro q hq
            show q.pid < d.allocated + 1
            rw [hp] at hq
            simp only [List.append_nil, List.mem_append,
              List.mem_singleton] at hq
            rcases hq with hq1 | rfl
            · have := hlt q (by simp [hq1])
              omega
            · simp
  | work pid st =>
      show (d.work pid st).wf
      have hmap : ((d.work pid st).live ++ (d.work pid st).pool).map
            PPipeline.pid
          = (d.live ++ d.pool).map PPipeline.pid := by
        show ((d.live.map _) ++ d.pool).map PPipeline.pid = _
        simp only [List.map_append, List.map_map]
        congr 1
        apply List.map_congr_left
        intro p _
        by_cases hc : p.pid = pid <;> simp [hc]
      constructor
      · rw [hmap]; exact hnd
      · intro q hq
        show q.pid < d.allocated
        simp only [PipelineDef.work, List.mem_append, List.mem_map] at hq
        rcases hq with ⟨p, hp, rfl⟩ | hq2
        · have hpp : (if p.pid = pid
              then { p with filters := p.filters.map (fun f => { f with state := st }) }
              else p).pid = p.pid := by
            by_cases hc : p.pid = pid <;> simp [hc]
          rw [hpp]
          exact hlt p (by simp [hp])
        · exact hlt q (by simp [hq2])
  | recycle pid =>
      show (d.recycle pid).wf
      cases hsp : PipelineDef.splitByPid pid d.live with
      | none =>
          have he : d.recycle pid = d := by
            simp [PipelineDef.recycle, hsp]
          rw [he]; exact ⟨hnd, hlt⟩
      | some r =>
          obtain ⟨pre, p, post⟩ := r
          obtain ⟨hl, _⟩ :=
            PipelineDef.splitByPid_sound pid d.live pre p post hsp
          have he : d.recycle pid
              = { d with live := pre ++ post, pool := p.reset :: d.pool } := by
            simp [PipelineDef.recycle, hsp]
          rw [he]
          have hperm0 : ((pre ++ post) ++ p :: d.pool).Perm (d.live ++ d.pool) := by
            rw [hl]
            have h1 : (pre ++ post) ++ p :: d.pool
                = pre ++ (post ++ p :: d.pool) := by
              simp [List.append_assoc]
            have h2 : (pre ++ p :: post) ++ d.pool
                = pre ++ (p :: (post ++ d.pool)) := by
              simp
            rw [h1, h2]
            exact List.Perm.append_left pre List.perm_middle
          have hmapEq : (((pre ++ post) ++ p.reset :: d.pool).map PPipeline.pid)
              = (((pre ++ post) ++ p :: d.pool).map PPipeline.pid) := by
            simp [PPipeline.reset]
          constructor
          · show (((pre ++ post) ++ p.reset :: d.pool).map PPipeline.pid).Nodup
            rw [hmapEq]
            exact ((hperm0.map PPipeline.pid).nodup_iff).mpr hnd
          · intro q hq
            show q.pid < d.allocated
            simp only [List.mem_append, List.mem_cons] at hq
            rcases hq with (hq1 | hq2) | rfl | hq3
            · exact hlt q (by rw [hl]; simp [hq1])
            · exact hlt q (by rw [hl]; simp [hq2])
            · show p.reset.pid < d.allocated
              have : p.reset.pid = p.pid := rfl
              rw [this]
              exact hlt p (by rw [hl]; simp)
            · exact hlt q (by simp [hq3])

theorem PipelineDef.step_allocated_le (d : PipelineDef) (op : PoolOp) :
    d.allocated ≤ (d.step op).allocated := by
  cases op with
  | alloc ctx =>
      show d.allocated ≤ ((d.alloc ctx).1).allocated
      cases hp : d.pool with
      | cons p rest => simp [PipelineDef.alloc, hp]
      | nil => simp [PipelineDef.alloc, hp]
  | work pid st => exact le_refl _
  | recycle pid =>
      show d.allocated ≤ (d.recycle pid).allocated
      cases hsp : PipelineDef.splitByPid pid d.live with
      | none => simp [PipelineDef.recycle, hsp]
      | some r => simp [PipelineDef.recycle, hsp]

theorem PipelineDef.runPool_allocated_le (ops : List PoolOp) :
    ∀ d : PipelineDef, d.allocated ≤ (d.runPool ops).allocated := by
  induction ops with
  | nil => exact fun d => le_refl _
  | cons op rest ih =>
      intro d
      exact le_trans (d.step_allocated_le op) (ih (d.step op))

theorem PipelineDef.runPool_wf (ops : List PoolOp) :
    ∀ d : PipelineDef, d.wf → (d.runPool ops).wf := by
  induction ops with
  | nil => exact fun d h => h
  | cons op rest ih =>
      intro d h
      exact ih (d.step op) (d.step_wf op h)

/-- C5: PipelineDef::alloc pops the free list when it is non-empty and
otherwise builds a new pipeline, cloning each filter template exactly once
and incrementing the allocated counter, installing the context either way;
Pipeline::on_recycle resets every filter and pushes the pipeline onto the
head of the free list (LIFO); over any operation sequence the allocated
counter never decreases; and from a well-formed layout no pipeline id is
ever on the live list and the free list at the same time. -/
theorem pipeline_pool_spec (d : PipelineDef) (ctx : Nat) :
    (∀ p rest, d.pool = p :: rest →
        d.alloc ctx
          = ({ d with pool := rest,
                      live := d.live ++ [{ p with ctx := some ctx }] },
             { p with ctx := some ctx })) ∧
    (d.pool = [] →
        d.alloc ctx
          = ({ d with allocated := d.allocated + 1,
                      live := d.live ++ [⟨d.allocated, d.templates.map cloneFilter, some ctx⟩] },
             ⟨d.allocated, d.templates.map cloneFilter, some ctx⟩) ∧
        (d.alloc ctx).2.filters = d.templates.map cloneFilter) ∧
    (∀ pid pre p post, PipelineDef.splitByPid pid d.live = some (pre, p, post) →
        d.recycle pid
          = { d with live := pre ++ post, pool := p.reset :: d.pool } ∧
        (∀ f ∈ p.reset.filters, f.state = 0)) ∧
    (∀ ops : List PoolOp, d.allocated ≤ (d.runPool ops).allocated) ∧
    (∀ ops : List PoolOp, d.wf → (d.runPool ops).wf ∧
        ∀ q, ¬(q ∈ ((d.runPool ops).live.map PPipeline.pid) ∧
          q ∈ ((d.runPool ops).pool.map PPipeline.pid))) := by
  refine ⟨?_, ?_, ?_, fun ops => PipelineDef.runPool_allocated_le ops d, ?_⟩
  · intro p rest hp
    simp [PipelineDef.alloc, hp]
  · intro hp
    refine ⟨by simp [PipelineDef.alloc, hp], ?_⟩
    simp [PipelineDef.alloc, hp]
  · intro pid pre p post hsp
    refine ⟨by simp [PipelineDef.recycle, hsp], ?_⟩
    intro f hf
    simp only [PPipeline.reset, List.mem_map] at hf
    obtain ⟨g, _, rfl⟩ := hf
    rfl
  · intro ops hwf
    have hwf' := PipelineDef.runPool_wf ops d hwf
    refine ⟨hwf', ?_⟩
    intro q ⟨hq1, hq2⟩
    obtain ⟨hnd, _⟩ := hwf'
    rw [List.map_append, List.nodup_append] at hnd
    exact hnd.2.2 hq1 hq2

/-- Witness for pipeline_pool_spec: a layout with an empty free list and
two templates, allocated once and recycled. -/
theorem pipeline_pool_spec_witness :
    ((⟨[4, 5], [], [], 0⟩ : PipelineDef).pool = [] ∧
      (⟨[4, 5], [], [], 0⟩ : PipelineDef).alloc 1
        = ({ (⟨[4, 5], [], [], 0⟩ : PipelineDef) with
              allocated := 0 + 1,
              live := ([] : List PPipeline) ++ [⟨0, [4, 5].map cloneFilter, some 1⟩] },
           ⟨0, [4, 5].map cloneFilter, some 1⟩) ∧
      ((⟨[4, 5], [], [], 0⟩ : PipelineDef).alloc 1).2.filters
        = [4, 5].map cloneFilter) ∧
    ((⟨[4, 5], [], [], 0⟩ : PipelineDef).wf ∧
      ∀ ops : List PoolOp,
        (⟨[4, 5], [], [], 0⟩ : PipelineDef).wf →
        ((⟨[4, 5], [], [], 0⟩ : PipelineDef).runPool ops).wf ∧
        ∀ q, ¬(q ∈ (((⟨[4, 5], [], [], 0⟩ : PipelineDef).runPool
              ops).live.map PPipeline.pid) ∧
          q ∈ (((⟨[4, 5], [], [], 0⟩ : PipelineDef).runPool
              ops).pool.map PPipeline.pid))) := by
  have hmain := pipeline_pool_spec (⟨[4, 5], [], [], 0⟩ : PipelineDef) 1
  refine ⟨⟨rfl, ?_⟩, ⟨?_, hmain.2.2.2.2⟩⟩
  · exact hmain.2.1 rfl
  · constructor
    · simp
    · intro p hp
      simp at hp

/-- Listener admission state (listener.cpp): the size of the m_inbounds
list of live inbound connections, the m_paused flag, and whether an
asynchronous accept is pending on the acceptor (true between a call to
accept() and the completion that runs Listener::open). -/
structure ListenerState : Type where
  inbounds : Nat
  paused : Bool
  accepting : Bool
  deriving DecidableEq, Repr

/-- Listener::pause (listener.cpp lines 171-176): cancel the acceptor
(dropping the pending accept) and set m_paused. -/
def ListenerState.pause (l : ListenerState) : ListenerState :=
  if l.paused then l else { l with accepting := false, paused := true }

/-- Listener::resume (listener.cpp lines 178-183): when paused, post a new
accept and clear m_paused. -/
def ListenerState.resume (l : ListenerState) : ListenerState :=
  if l.paused then { l with accepting := true, paused := false } else l

/-- Listener::open (listener.cpp lines 185-194), run when the pending
accept completes with a new inbound: add it to m_inbounds, then pause when
max_connections is positive and the size has reached it, otherwise accept
again. -/
def ListenerState.openInbound (n : Int) (l : ListenerState) : ListenerState :=
  let l' : ListenerState :=
    { l with inbounds := l.inbounds + 1, accepting := false }
  if 0 < n ∧ n ≤ (l'.inbounds : Int) then l'.pause
  else { l' with accepting := true }

/-- Listener::close (listener.cpp lines 196-202), run when an inbound
connection closes: remove it from m_inbounds and resume accepting when
max_connections is negative or the size is below it. -/
def ListenerState.closeInbound (n : Int) (l : ListenerState) : ListenerState :=
  let l' : ListenerState := { l with inbounds := l.inbounds - 1 }
  if n < 0 ∨ (l'.inbounds : Int) < n then l'.resume else l'

/-- Reachable listener states for a fixed max_connections option n:
Listener::start (listener.cpp lines 149-151) begins with no inbounds, not
paused, and a first accept posted when the limit allows; an accept
completion (possible only while an accept is pending) runs Listener::open,
and a connection close (possible only while an inbound is live) runs
Listener::close. -/
inductive ListenerReachable (n : Int) : ListenerState → Prop
  | start :
      ListenerReachable n ⟨0, false, decide (n < 0) || decide (0 < n)⟩
  | accept (l : ListenerState) :
      ListenerReachable n l → l.accepting = true →
      ListenerReachable n (ListenerState.openInbound n l)
  | close (l : ListenerState) :
      ListenerReachable n l → 0 < l.inbounds →
      ListenerReachable n (ListenerState.closeInbound n l)

/-- C7: with a positive max_connections n, every reachable listener state
keeps the number of live inbound connections at most n; an accept is
pending exactly while the count is below n (so the listener pauses on
reaching the limit and resumes as soon as a close drops the count below
it), and the paused flag is the exact complement of a pending accept. -/
theorem listener_admission (n : Int) (hn : 0 < n) :
    ∀ l : ListenerState, ListenerReachable n l →
      (l.inbounds : Int) ≤ n ∧
      (l.accepting = true ↔ (l.inbounds : Int) < n) ∧
      l.paused = !l.accepting := by
  intro l h
  induction h with
  | start =>
      refine ⟨by simpa using le_of_lt hn, ?_, ?_⟩
      · constructor
        · intro _; simpa using hn
        · intro _
          simp only [Bool.or_eq_true, decide_eq_true_eq]
          omega
      · have : (decide (n < 0) || decide (0 < n)) = true := by
          simp only [Bool.or_eq_true, decide_eq_true_eq]
          omega
        rw [this]
        rfl
  | accept l hr hacc ih =>
      obtain ⟨ih1, ih2, ih3⟩ := ih
      have hlt : (l.inbounds : Int) < n := ih2.mp hacc
      have hpaused : l.paused = false := by rw [ih3, hacc]; rfl
      unfold ListenerState.openInbound
      by_cases hc : 0 < n ∧ n ≤ ((l.inbounds + 1 : Nat) : Int)
      · rw [if_pos hc]
        unfold ListenerState.pause
        rw [hpaused]
        simp only [Bool.false_eq_true, if_false]
        refine ⟨?_, ?_, rfl⟩
        · show ((l.inbounds + 1 : Nat) : Int) ≤ n
          push_cast
          omega
        · constructor
          · intro hfalse; exact absurd hfalse (by simp)
          · intro hlt'
            exfalso
            have hlt2 : ((l.inbounds + 1 : Nat) : Int) < n := hlt'
            push_cast at hlt2 hc
            omega
      · rw [if_neg hc]
        refine ⟨?_, ?_, ?_⟩
        · show ((l.inbounds + 1 : Nat) : Int) ≤ n
          push_cast at hc ⊢
          omega
        · constructor
          · intro _
            show ((l.inbounds + 1 : Nat) : Int) < n
            push_cast at hc ⊢
            omega
          · intro _; rfl
        · rw [hpaused]; rfl
  | close l hr hpos ih =>
      obtain ⟨ih1, ih2, ih3⟩ := ih
      unfold ListenerState.closeInbound
      have hlt' : ((l.inbounds - 1 : Nat) : Int) < n := by
        push_cast
        omega
      rw [if_pos (Or.inr hlt')]
      unfold ListenerState.resume
      by_cases hp : l.paused = true
      · rw [if_pos hp]
        refine ⟨by push_cast; omega, ?_, rfl⟩
        constructor
        · intro _; exact hlt'
        · intro _; rfl
      · have hp' : l.paused = false := by
          cases hpl : l.paused
          · rfl
          · exact absurd hpl hp
        rw [if_neg (by rw [hp']; simp)]
        have hacc : l.accepting = true := by
          rw [ih3] at hp'
          cases hal : l.accepting
          · rw [hal] at hp'; simp at hp'
          · rfl
        refine ⟨by push_cast; omega, ?_, ?_⟩
        · constructor
          · intro _; exact hlt'
          · intro _; exact hacc
        · simp only []
          rw [hp', hacc]
          rfl

/-- Witness for listener_admission: the state after one accepted
connection under the limit 2. -/
theorem listener_admission_witness :
    ((0 : Int) < 2 ∧
      ListenerReachable 2 (ListenerState.openInbound 2
        ⟨0, false, decide ((2 : Int) < 0) || decide ((0 : Int) < 2)⟩)) ∧
    (((ListenerState.openInbound 2
        ⟨0, false, decide ((2 : Int) < 0) || decide ((0 : Int) < 2)⟩).inbounds : Int) ≤ 2 ∧
      ((ListenerState.openInbound 2
        ⟨0, false, decide ((2 : Int) < 0) || decide ((0 : Int) < 2)⟩).accepting = true ↔
        ((ListenerState.openInbound 2
          ⟨0, false, decide ((2 : Int) < 0) || decide ((0 : Int) < 2)⟩).inbounds : Int) < 2) ∧
      (ListenerState.openInbound 2
        ⟨0, false, decide ((2 : Int) < 0) || decide ((0 : Int) < 2)⟩).paused
        = !(ListenerState.openInbound 2
          ⟨0, false, decide ((2 : Int) < 0) || decide ((0 : Int) < 2)⟩).accepting) := by
  have hreach : ListenerReachable 2 (ListenerState.openInbound 2
      ⟨0, false, decide ((2 : Int) < 0) || decide ((0 : Int) < 2)⟩) :=
    ListenerReachable.accept _ ListenerReachable.start (by decide)
  exact ⟨⟨by decide, hreach⟩, listener_admission 2 (by decide) _ hreach⟩

end Pipy
